import Mathlib

/-!
# kuma-tools: random service-mesh generator (`generate_mesh.go`)

A shallow embedding of `generate_mesh.go` and a verification of its
specification.

* Go `int` values are modelled by `Int`.  No arithmetic of the program can
  overflow: the only arithmetic is `i++`, `j++`, `i + 1` and `j - i` with
  `0 ≤ i < j < numServices`.
* The pseudo-random generator `rand.New(rand.NewSource(seed))` belongs to the Go
  standard library.  It is taken as a parameter: `source seed k` is the value
  of the `k`-th call of `r.Int()` on the generator created from `seed`
  (`r.Int()` returns a non-negative `int`, hence `Nat`).
* Run-time panics (index out of range, integer division by zero) are modelled
  by `none`.
* `text/template` also belongs to the standard library.  The three templates of
  the program are embedded as the node lists that `Parse` produces for them and
  `Template.Execute` walks such a list, performing one `Write` per node.
-/

namespace GenerateMesh

/-! ## Data model -/

/-- The Go struct `service`: a node index and the indices of its callees. -/
structure service where
  idx : Int
  edges : List Int
deriving DecidableEq, Repr

/-- The Go type `services`, a slice of `service`. -/
abbrev services := List service

/-- The Go struct `serviceConf`. -/
structure serviceConf where
  withFailure : Bool
  withGenerator : Bool
  namespace_ : String
  mesh : String
  image : String
deriving DecidableEq, Repr

/-! ## The random stream -/

/-- The state of a `*rand.Rand`: the stream of values it yields and the number
of values already consumed. -/
structure Rand where
  draws : Nat → Nat
  pos : Nat

/-- The call `rand.New(rand.NewSource(seed))`, for the generator `source`. -/
def Rand.New (source : Int → Nat → Nat) (seed : Int) : Rand :=
  { draws := source seed, pos := 0 }

/-- The call `r.Int()`: the next value of the stream, as a Go `int`, and the
advanced generator. -/
def Rand.next (r : Rand) : Int × Rand :=
  ((r.draws r.pos : Nat), { r with pos := r.pos + 1 })

/-! ## Go primitives -/

/-- The values taken by the loop variable of `for i := lo; i < hi; i++`, whose
body assigns neither `i` nor `hi`. -/
def intRange (lo hi : Int) : List Int :=
  (List.range (hi - lo).toNat).map (fun (k : Nat) => lo + (k : Int))

/-- The Go integer remainder `a % b`: truncated, and a panic when `b` is zero. -/
def goRem (a b : Int) : Option Int :=
  if b = 0 then none else some (Int.tmod a b)

/-- The statement `srvs[i].edges = append(srvs[i].edges, j)`; indexing out of
range panics. -/
def appendEdge (srvs : services) (i j : Int) : Option services :=
  if 0 ≤ i ∧ i.toNat < srvs.length then
    some (srvs.modify (fun s => { s with edges := s.edges ++ [j] }) i.toNat)
  else
    none

/-! ## `GenerateRandomServiceMesh` -/

/-- The variables of `GenerateRandomServiceMesh` that its loops update. -/
structure GenState where
  r : Rand
  srvs : services

/-- The first loop: `srvs = append(srvs, service{idx: i})` for
`i := 0; i < numServices; i++`. -/
def initServices (numServices : Int) : services :=
  (intRange 0 numServices).foldl (fun srvs i => srvs ++ [{ idx := i, edges := [] }]) []

/-- The body of the inner loop for the pair `(i, j)`:
`if r.Int()%(j-i) == 0 && r.Int()%100 < percentEdges { srvs[i].edges = append(srvs[i].edges, j) }`.
The right operand of `&&`, and with it the second draw, is evaluated only when
the left operand is true. -/
def edgeStep (percentEdges : Int) (i j : Int) (st : GenState) : Option GenState :=
  let (a, r1) := st.r.next
  match goRem a (j - i) with
  | none => none
  | some m =>
    if m = 0 then
      let (b, r2) := r1.next
      match goRem b 100 with
      | none => none
      | some m' =>
        if m' < percentEdges then
          match appendEdge st.srvs i j with
          | none => none
          | some srvs => some { r := r2, srvs := srvs }
        else
          some { r := r2, srvs := st.srvs }
    else
      some { r := r1, srvs := st.srvs }

/-- The inner loop `for j := i + 1; j < numServices; j++` for one `i`. -/
def innerLoop (numServices percentEdges : Int) (i : Int) (st : GenState) : Option GenState :=
  (intRange (i + 1) numServices).foldlM (fun st j => edgeStep percentEdges i j st) st

/-- The outer loop `for i := 0; i < numServices; i++`. -/
def outerLoop (numServices percentEdges : Int) (st : GenState) : Option GenState :=
  (intRange 0 numServices).foldlM (fun st i => innerLoop numServices percentEdges i st) st

/-- The whole body of `GenerateRandomServiceMesh`, keeping the final state of
the generator beside the graph. -/
def generateRun (source : Int → Nat → Nat) (seed : Int) (numServices percentEdges : Int) :
    Option GenState :=
  outerLoop numServices percentEdges
    { r := Rand.New source seed, srvs := initServices numServices }

/-- The Go function `GenerateRandomServiceMesh(seed, numServices, percentEdges)`;
`none` stands for a run-time panic. -/
def GenerateRandomServiceMesh (source : Int → Nat → Nat) (seed : Int)
    (numServices percentEdges : Int) : Option services :=
  (generateRun source seed numServices percentEdges).map (fun st => st.srvs)

/-! ## Formatting (`fmt`) -/

/-- Left padding of a digit string with `0` up to the width `w`. -/
def zeroPad (w : Nat) (digits : String) : String :=
  String.mk (List.replicate (w - digits.length) '0') ++ digits

/-- The verb `%d` of `fmt` applied to an `int`. -/
def fmtD (n : Int) : String :=
  if n < 0 then "-" ++ Nat.repr n.natAbs else Nat.repr n.toNat

/-- The verb `%03d` of `fmt` applied to an `int`: the decimal digits, padded with
zeros on the left to the width 3, of which a minus sign takes one place. -/
def fmtD03 (n : Int) : String :=
  if n < 0 then "-" ++ zeroPad 2 (Nat.repr n.natAbs) else zeroPad 3 (Nat.repr n.toNat)

/-- The Go function `toName`: `fmt.Sprintf("srv-%03d", idx)`. -/
def toName (idx : Int) : String :=
  "srv-" ++ fmtD03 idx

/-- The Go function `toUri`:
`fmt.Sprintf("http://%s_%s_svc_80.mesh:80", toName(idx), namespace)`. -/
def toUri (idx : Int) (namespace_ : String) : String :=
  "http://" ++ toName idx ++ "_" ++ namespace_ ++ "_svc_80.mesh:80"

/-- The Go method `service.toUris`: the URIs of the callees, joined by commas. -/
def service.toUris (s : service) (namespace_ : String) : String :=
  String.intercalate "," (s.edges.foldl (fun all edge => all ++ [toUri edge namespace_]) [])

/-- The Go method `services.ToDot`. -/
def services.ToDot (s : services) : String :=
  let allEdges : List String :=
    s.foldl (fun acc srv =>
      srv.edges.foldl (fun acc other => acc ++ [fmtD srv.idx ++ " -> " ++ fmtD other ++ ";"]) acc) []
  "digraph\x7b\n" ++ String.intercalate "\n" allEdges ++ "\n\x7d\n"

/-! ## The output sink (`io.Writer`) -/

/-- The Go value `error`, as far as this program can produce one. -/
inductive Err where
  /-- The sink rejected its `call`-th `Write`. -/
  | write (call : Nat)
  /-- Template execution with `missingkey=error`: the map has no entry for `key`. -/
  | missingKey (key : String)
deriving DecidableEq, Repr

/-- An `io.Writer`: the text it has accepted, the number of `Write` calls it has
received, and its behaviour: `reject k = none` when the call number `k` succeeds,
`reject k = some m` when that call fails after accepting at most `m` characters. -/
structure Writer where
  out : String
  calls : Nat
  reject : Nat → Option Nat

/-- The call `writer.Write(p)`: the writer afterwards and the error returned. -/
def Writer.Write (w : Writer) (p : String) : Writer × Option Err :=
  match w.reject w.calls with
  | none => ({ w with out := w.out ++ p, calls := w.calls + 1 }, none)
  | some m =>
    ({ w with out := w.out ++ String.mk (p.data.take m), calls := w.calls + 1 },
      some (Err.write w.calls))

/-! ## Templates (`text/template`) -/

/-- A node that can stand inside an `if` block of the templates of this program. -/
inductive Leaf where
  /-- Literal text. -/
  | text (s : String)
  /-- The action `{{.key}}`. -/
  | field (key : String)
deriving DecidableEq, Repr

/-- A top-level node of a parsed template. -/
inductive Node where
  /-- Literal text. -/
  | text (s : String)
  /-- The action `{{.key}}`. -/
  | field (key : String)
  /-- The block `{{if .key}} body {{end}}`. -/
  | ifField (key : String) (body : List Leaf)
deriving DecidableEq, Repr

/-- The data of an execution, a Go `map[string]string`. -/
abbrev Data := List (String × String)

/-- Execution of `{{.key}}` under `missingkey=error`: the value is looked up, a
missing key is an error, and the value is printed by one `Write`. -/
def execField (data : Data) (key : String) (w : Writer) : Writer × Option Err :=
  match data.lookup key with
  | none => (w, some (Err.missingKey key))
  | some v => w.Write v

/-- Execution of a node of an `if` block. -/
def Leaf.exec (data : Data) (w : Writer) : Leaf → Writer × Option Err
  | .text s => w.Write s
  | .field key => execField data key w

/-- Execution of the nodes of an `if` block in sequence, up to the first error. -/
def execLeaves (data : Data) : List Leaf → Writer → Writer × Option Err
  | [], w => (w, none)
  | l :: rest, w =>
    match l.exec data w with
    | (w1, some err) => (w1, some err)
    | (w1, none) => execLeaves data rest w1

/-- Execution of a top-level node.  The condition of `{{if .key}}` is looked up
like a field and holds when the string is not empty. -/
def Node.exec (data : Data) (w : Writer) : Node → Writer × Option Err
  | .text s => w.Write s
  | .field key => execField data key w
  | .ifField key body =>
    match data.lookup key with
    | none => (w, some (Err.missingKey key))
    | some v => if v = "" then (w, none) else execLeaves data body w

/-- The method `Template.Execute(writer, data)`: the nodes are executed in
sequence, up to the first error. -/
def Template.Execute (t : List Node) (w : Writer) (data : Data) : Writer × Option Err :=
  match t with
  | [] => (w, none)
  | n :: rest =>
    match n.exec data w with
    | (w1, some err) => (w1, some err)
    | (w1, none) => Template.Execute rest w1 data

/-- The parse tree of `srvTemplate`: the workload (StatefulSet) and Service documents
of one node.  The text in front of a `{{-` action is stripped of its trailing white
space, and a text that becomes empty yields no node. -/
def srvTemplate : List Node :=
  [ .text "\napiVersion: apps/v1\nkind: StatefulSet\nmetadata:\n  name: ",
    .field "name",
    .ifField "namespace" [.text "\n  namespace: ", .field "namespace"],
    .text "\n  labels:\n    app: ",
    .field "name",
    .text "\nspec:\n  replicas: 1\n  selector:\n    matchLabels:\n      app: ",
    .field "name",
    .text "\n  serviceName: ",
    .field "name",
    .text "\n  template:\n    metadata:\n      labels:\n        app: ",
    .field "name",
    .text "\n      annotations:\n        kuma.io/mesh: ",
    .field "mesh",
    .text "\n    spec:\n      containers:\n        - name: service\n          image: ",
    .field "image",
    .text "\n          ports:\n            - containerPort: 9090\n          env:\n            - name: SERVICE\n              value: \"",
    .field "name",
    .text "\"\n            - name: UPSTREAM_URIS\n              value: \"",
    .field "uris",
    .text "\"\n          resources:\n            limits:\n              memory: \"64Mi\"\n              cpu: \"100m\"\n---\napiVersion: v1\nkind: Service\nmetadata:\n  name: ",
    .field "name",
    .ifField "namespace" [.text "\n  namespace: ", .field "namespace"],
    .text "\n  annotations:\n    80.service.kuma.io/protocol: http\nspec:\n  selector:\n    app: ",
    .field "name",
    .text "\n  ports:\n    - protocol: TCP\n      port: 80\n      targetPort: 9090\n" ]

/-- The parse tree of `clientTemplate`: the load-generator Deployment. -/
def clientTemplate : List Node :=
  [ .text "\n---\napiVersion: apps/v1\nkind: Deployment\nmetadata:",
    .ifField "namespace" [.text "\n  namespace: ", .field "namespace"],
    .text "\n  name: \"fake-client\"\nspec:\n  replicas: 1\n  selector:\n    matchLabels:\n      app: \"fake-client\"\n  template:\n    metadata:\n      labels:\n        app: \"fake-client\" \n      annotations:\n        kuma.io/mesh: ",
    .field "mesh",
    .text "\n    spec:\n      containers:\n        - name: client\n          image: buoyantio/slow_cooker:1.3.0\n          args: [\"-qps\", \"1\", \"-concurrency\", \"10\", \"",
    .field "uri",
    .text "\"]\n          resources:\n            limits:\n              memory: \"32Mi\"\n              cpu: \"200m\"\n" ]

/-- The parse tree of `namespaceTemplate`: the Mesh and Namespace documents. -/
def namespaceTemplate : List Node :=
  [ .text "\napiVersion: kuma.io/v1alpha1\nkind: Mesh\nmetadata:\n  name: ",
    .field "mesh",
    .text "\nspec:\n  metrics:\n    backends:\n    - conf:\n        path: /metrics\n        port: 5670\n        tags:\n          kuma.io/service: dataplane-metrics\n      name: prometheus-1\n      type: prometheus\n    enabledBackend: prometheus-1\n  mtls:\n    backends:\n    - name: ca-1\n      type: builtin\n    enabledBackend: ca-1\n---\napiVersion: v1\nkind: Namespace\nmetadata:\n  name: ",
    .field "namespace",
    .text "\n  annotations:\n   kuma.io/sidecar-injection: enabled\n" ]

/-! ## Rendering -/

/-- The Go method `service.ToYaml`. -/
def service.ToYaml (s : service) (writer : Writer) (namespace_ mesh image : String) :
    Writer × Option Err :=
  Template.Execute srvTemplate writer
    [ ("name", toName s.idx),
      ("namespace", namespace_),
      ("mesh", mesh),
      ("uris", s.toUris namespace_),
      ("image", image) ]

/-- The loop `for _, srv := range s` of `services.ToYaml`: the separator, then
the documents of the node, returning at the first error. -/
def services.ToYaml.nodes (conf : serviceConf) : services → Writer → Writer × Option Err
  | [], w => (w, none)
  | srv :: rest, w =>
    match w.Write "---" with
    | (w1, some err) => (w1, some err)
    | (w1, none) =>
      match srv.ToYaml w1 conf.namespace_ conf.mesh conf.image with
      | (w2, some err) => (w2, some err)
      | (w2, none) => services.ToYaml.nodes conf rest w2

/-- The Go method `services.ToYaml`. -/
def services.ToYaml (s : services) (writer : Writer) (conf : serviceConf) :
    Writer × Option Err :=
  match Template.Execute namespaceTemplate writer
      [("namespace", conf.namespace_), ("mesh", conf.mesh)] with
  | (w1, some err) => (w1, some err)
  | (w1, none) =>
    if conf.withGenerator then
      match Template.Execute clientTemplate w1
          [ ("namespace", conf.namespace_),
            ("mesh", conf.mesh),
            ("uri", toUri 0 conf.namespace_) ] with
      | (w2, some err) => (w2, some err)
      | (w2, none) => services.ToYaml.nodes conf s w2
    else
      services.ToYaml.nodes conf s w1

/-! ## The generator as the claims describe it -/

/-- The pairs `(i, j)` with `i < j < n`, `i` ascending and then `j` ascending. -/
def pairsLex (n : Nat) : List (Nat × Nat) :=
  (List.range n).flatMap (fun i => (List.range' (i + 1) (n - (i + 1))).map (fun j => (i, j)))

/-- The stream position after the pair `(i, j)` whose first draw is taken at
`pos`: one draw, and a second one when the first is a multiple of `j - i`. -/
def posAfter (draws : Nat → Nat) (i j pos : Nat) : Nat :=
  if draws pos % (j - i) = 0 then pos + 2 else pos + 1

/-- Each pair of the list with the stream position of its first draw, when the
first pair draws at `pos`. -/
def drawPositions (draws : Nat → Nat) : List (Nat × Nat) → Nat → List (Nat × Nat × Nat)
  | [], _ => []
  | (i, j) :: rest, pos => (i, j, pos) :: drawPositions draws rest (posAfter draws i j pos)

/-- The stream position after all pairs of the list. -/
def endPos (draws : Nat → Nat) : List (Nat × Nat) → Nat → Nat
  | [], pos => pos
  | (i, j) :: rest, pos => endPos draws rest (posAfter draws i j pos)

/-- The two conditions on the draws `a` (at `pos`) and `b` (at `pos + 1`) of the
pair `(i, j)`: `a mod (j - i) == 0` and `b mod 100 < percentEdges`. -/
def accepts (draws : Nat → Nat) (percentEdges : Int) (e : Nat × Nat × Nat) : Bool :=
  decide (draws e.2.2 % (e.2.1 - e.1) = 0) &&
    decide (((draws (e.2.2 + 1) % 100 : Nat) : Int) < percentEdges)

/-- The accepted pairs among the pairs below `n`, in the order of the visit, each
with the position of its first draw. -/
def specEdges (draws : Nat → Nat) (n : Nat) (percentEdges : Int) : List (Nat × Nat × Nat) :=
  (drawPositions draws (pairsLex n) 0).filter (accepts draws percentEdges)

/-- The targets of the accepted pairs whose source is `i`. -/
def specTargets (draws : Nat → Nat) (n : Nat) (percentEdges : Int) (i : Nat) : List Int :=
  ((specEdges draws n percentEdges).filter (fun e => e.1 = i)).map (fun e => (e.2.1 : Int))

/-- The graph of the claims: `n` nodes, node `i` carrying the targets of the
accepted pairs `(i, j)`. -/
def specGraph (draws : Nat → Nat) (n : Nat) (percentEdges : Int) : services :=
  (List.range n).map (fun (i : Nat) => { idx := (i : Int), edges := specTargets draws n percentEdges i })

/-- The graph after the statement `srvs[i].edges = append(srvs[i].edges, j)` has
run for each listed pair. -/
def addEdges (srvs : services) (es : List (Nat × Nat × Nat)) : services :=
  es.foldl (fun s e => s.modify (fun x => { x with edges := x.edges ++ [(e.2.1 : Int)] }) e.1) srvs

/-- The graph `g` has the edge `i -> j`: a node of index `i` lists `j`. -/
def hasEdge (g : services) (i j : Int) : Prop :=
  ∃ s ∈ g, s.idx = i ∧ j ∈ s.edges

/-- The number of edges of a graph. -/
def edgeCount (g : services) : Nat :=
  (g.map (fun s => s.edges.length)).sum

/-! ## The documents of the output -/

/-- A sink that accepts every write. -/
def Writer.accepting (w : Writer) : Prop :=
  ∀ k, w.reject k = none

/-- The metadata line `namespace: <namespace>`, present when the namespace is not
the empty string. -/
def namespaceLine (namespace_ : String) : String :=
  if namespace_ = "" then "" else "\n  namespace: " ++ namespace_

/-- The namespace+mesh document pair: the Mesh named `conf.mesh` and the Namespace
named `conf.namespace`. -/
def namespaceDoc (conf : serviceConf) : String :=
  "\napiVersion: kuma.io/v1alpha1\nkind: Mesh\nmetadata:\n  name: " ++
    conf.mesh ++
    "\nspec:\n  metrics:\n    backends:\n    - conf:\n        path: /metrics\n        port: 5670\n        tags:\n          kuma.io/service: dataplane-metrics\n      name: prometheus-1\n      type: prometheus\n    enabledBackend: prometheus-1\n  mtls:\n    backends:\n    - name: ca-1\n      type: builtin\n    enabledBackend: ca-1\n---\napiVersion: v1\nkind: Namespace\nmetadata:\n  name: " ++
    conf.namespace_ ++
    "\n  annotations:\n   kuma.io/sidecar-injection: enabled\n"

/-- The load-generator document: the Deployment `fake-client` aimed at node 0. -/
def clientDoc (conf : serviceConf) : String :=
  "\n---\napiVersion: apps/v1\nkind: Deployment\nmetadata:" ++
    namespaceLine conf.namespace_ ++
    "\n  name: \"fake-client\"\nspec:\n  replicas: 1\n  selector:\n    matchLabels:\n      app: \"fake-client\"\n  template:\n    metadata:\n      labels:\n        app: \"fake-client\" \n      annotations:\n        kuma.io/mesh: " ++
    conf.mesh ++
    "\n    spec:\n      containers:\n        - name: client\n          image: buoyantio/slow_cooker:1.3.0\n          args: [\"-qps\", \"1\", \"-concurrency\", \"10\", \"" ++
    toUri 0 conf.namespace_ ++
    "\"]\n          resources:\n            limits:\n              memory: \"32Mi\"\n              cpu: \"200m\"\n"

/-- The workload+Service document pair of one node. -/
def serviceDoc (s : service) (namespace_ mesh image : String) : String :=
  "\napiVersion: apps/v1\nkind: StatefulSet\nmetadata:\n  name: " ++
    toName s.idx ++
    namespaceLine namespace_ ++
    "\n  labels:\n    app: " ++
    toName s.idx ++
    "\nspec:\n  replicas: 1\n  selector:\n    matchLabels:\n      app: " ++
    toName s.idx ++
    "\n  serviceName: " ++
    toName s.idx ++
    "\n  template:\n    metadata:\n      labels:\n        app: " ++
    toName s.idx ++
    "\n      annotations:\n        kuma.io/mesh: " ++
    mesh ++
    "\n    spec:\n      containers:\n        - name: service\n          image: " ++
    image ++
    "\n          ports:\n            - containerPort: 9090\n          env:\n            - name: SERVICE\n              value: \"" ++
    toName s.idx ++
    "\"\n            - name: UPSTREAM_URIS\n              value: \"" ++
    s.toUris namespace_ ++
    "\"\n          resources:\n            limits:\n              memory: \"64Mi\"\n              cpu: \"100m\"\n---\napiVersion: v1\nkind: Service\nmetadata:\n  name: " ++
    toName s.idx ++
    namespaceLine namespace_ ++
    "\n  annotations:\n    80.service.kuma.io/protocol: http\nspec:\n  selector:\n    app: " ++
    toName s.idx ++
    "\n  ports:\n    - protocol: TCP\n      port: 80\n      targetPort: 9090\n"

/-- The text that `{{.key}}` prints, or the error of a missing key. -/
def renderField (data : Data) (key : String) : Except Err String :=
  match data.lookup key with
  | none => .error (Err.missingKey key)
  | some v => .ok v

/-- The text that a node of an `if` block prints. -/
def Leaf.render (data : Data) : Leaf → Except Err String
  | .text s => .ok s
  | .field key => renderField data key

/-- The text that the nodes of an `if` block print. -/
def renderLeaves (data : Data) : List Leaf → Except Err String
  | [] => .ok ""
  | l :: rest => do
    let a ← l.render data
    let b ← renderLeaves data rest
    pure (a ++ b)

/-- The text that a top-level node prints. -/
def Node.render (data : Data) : Node → Except Err String
  | .text s => .ok s
  | .field key => renderField data key
  | .ifField key body => do
    let v ← renderField data key
    if v = "" then pure "" else renderLeaves data body

/-- The text that a template prints into a sink that accepts every write. -/
def renderNodes (data : Data) : List Node → Except Err String
  | [] => .ok ""
  | n :: rest => do
    let a ← n.render data
    let b ← renderNodes data rest
    pure (a ++ b)

/-! ## Example inputs -/

/-- The configuration that `main` builds from the default values of its flags. -/
def defaultConf : serviceConf :=
  { withFailure := false,
    withGenerator := false,
    namespace_ := "kuma-test",
    mesh := "default",
    image := "nicholasjackson/fake-service:v0.21.1" }

/-- The complete acyclic graph over three nodes. -/
def threeNodes : services :=
  [ { idx := 0, edges := [1, 2] }, { idx := 1, edges := [2] }, { idx := 2, edges := [] } ]

/-- An empty sink that accepts every write. -/
def acceptingSink : Writer :=
  { out := "", calls := 0, reject := fun _ => none }

/-! ## Joined lists as the claims describe them -/

/-- The strings separated by single commas: nothing in front of the first one and
nothing behind the last one. -/
def commaJoined : List String → String
  | [] => ""
  | [a] => a
  | a :: b :: rest => a ++ "," ++ commaJoined (b :: rest)

/-! ## Decimal numerals -/

/-- The value of a decimal digit character. -/
def digitVal (c : Char) : Nat :=
  c.toNat - '0'.toNat

/-- The number that a string of decimal digits denotes, leading zeros allowed. -/
def decimalValue (digits : String) : Nat :=
  Nat.ofDigits 10 ((digits.data.map digitVal).reverse)

/-! ## The graph description as the claims describe it -/

/-- The character of the decimal digit `d`. -/
def decimalDigit (d : Nat) : Char :=
  Char.ofNat ('0'.toNat + d)

/-- The decimal numeral of a natural number: `0` for zero, and otherwise its decimal
digits, the most significant one first, without leading zeros. -/
def decimalNat (n : Nat) : String :=
  if n = 0 then "0" else String.mk ((Nat.digits 10 n).reverse.map decimalDigit)

/-- The decimal numeral of an integer: for a negative one a minus sign in front of
the numeral of its absolute value. -/
def decimalInt (n : Int) : String :=
  if n < 0 then "-" ++ decimalNat n.natAbs else decimalNat n.toNat

/-- The line of the edge from `i` to `j`: `<i> -> <j>;`, both in decimal. -/
def edgeLine (i j : Int) : String :=
  decimalInt i ++ " -> " ++ decimalInt j ++ ";"

/-- The edge lines of a graph: node after node, and within a node in the order of
its edge list. -/
def edgeLines (s : services) : List String :=
  s.flatMap (fun srv => srv.edges.map (fun other => edgeLine srv.idx other))

/-- A line is edge-shaped when it is the line of some edge. -/
def edgeShaped (l : String) : Prop :=
  ∃ i j : Int, l = edgeLine i j

/-- The lines of a text: the pieces between its line feeds. -/
def textLines (t : String) : List String :=
  (t.data.splitOn '\n').map String.mk

/-- The text made of the given lines, each one ended by a line feed. -/
def unlines (ls : List String) : String :=
  String.join (ls.map (fun l => l ++ "\n"))

/-! ## Runs of writes -/

/-- The sink `w2` and the error `r` are a possible outcome of a run of writes that
was to append `text` to the sink `w` and returns at its first rejected call: the
calls before the last one were accepted, what was appended is a prefix of `text`,
without an error all of `text` was appended and every call was accepted, and an
error is the rejection of the last call made. -/
def stopsAtFirstFailure (w w2 : Writer) (r : Option Err) (text : String) : Prop :=
  w2.reject = w.reject ∧ w.calls ≤ w2.calls ∧
    (∀ i, w.calls ≤ i → i + 1 < w2.calls → w.reject i = none) ∧
    (∃ pre : String, w2.out = w.out ++ pre ∧ pre.data <+: text.data) ∧
    (r = none → w2.out = w.out ++ text ∧ ∀ i, w.calls ≤ i → i < w2.calls → w.reject i = none) ∧
    (∀ e, r = some e →
      w.calls < w2.calls ∧ e = Err.write (w2.calls - 1) ∧ w.reject (w2.calls - 1) ≠ none)

/-- The text that `services.ToYaml` writes into a sink that accepts every write. -/
def fullYaml (s : services) (conf : serviceConf) : String :=
  namespaceDoc conf ++ (if conf.withGenerator = true then clientDoc conf else "") ++
    String.join (s.map (fun srv => "---" ++ serviceDoc srv conf.namespace_ conf.mesh conf.image))

/-! ## Keys of the templates -/

/-- The keys that the nodes of an `if` block refer to. -/
def leafKeys : List Leaf → List String
  | [] => []
  | .text _ :: rest => leafKeys rest
  | .field key :: rest => key :: leafKeys rest

/-- The keys that a template refers to, conditions of `if` blocks included. -/
def templateKeys : List Node → List String
  | [] => []
  | .text _ :: rest => templateKeys rest
  | .field key :: rest => key :: templateKeys rest
  | .ifField key body :: rest => key :: (leafKeys body ++ templateKeys rest)

/-! ## More example inputs -/

/-- The default configuration with the load generator switched on. -/
def generatorConf : serviceConf :=
  { defaultConf with withGenerator := true }

/-- An empty sink that rejects its call number 8 after three characters and
accepts every other call. -/
def failingSink : Writer :=
  { out := "", calls := 0, reject := fun k => if k = 8 then some 3 else none }

/-! ## Text search -/

/-- Whether the characters `sub` occur, in a row, somewhere in `text`. -/
def occursIn (sub : List Char) : List Char → Bool
  | [] => sub.isEmpty
  | c :: cs => sub.isPrefixOf (c :: cs) || occursIn sub cs

/-! # Verification -/

/-! ## Loops as list traversals -/

theorem intRange_zero (n : Int) : intRange 0 n = (List.range n.toNat).map (fun (k : Nat) => (k : Int)) := by
  simp [intRange]

theorem intRange_succ (i : Nat) (n : Int) :
    intRange ((i : Int) + 1) n = (List.range' (i + 1) (n.toNat - (i + 1))).map (fun (k : Nat) => (k : Int)) := by
  unfold intRange
  have h : (n - ((i : Int) + 1)).toNat = n.toNat - (i + 1) := by omega
  rw [h, List.range'_eq_map_range, List.map_map]
  apply List.map_congr_left
  intro a _
  simp only [Function.comp_apply]
  push_cast
  ring

/-- The guard of the `for` statement: the body runs at `lo` and the loop goes on
from `lo + 1` when `lo < hi`, and the loop is over otherwise. -/
theorem intRange_unfold (lo hi : Int) :
    intRange lo hi = if lo < hi then lo :: intRange (lo + 1) hi else [] := by
  unfold intRange
  split
  · next h =>
    have h1 : (hi - lo).toNat = (hi - (lo + 1)).toNat + 1 := by omega
    rw [h1, List.range_succ_eq_map]
    simp [Function.comp_def]
    intro a _
    ring
  · next h =>
    have h1 : (hi - lo).toNat = 0 := by omega
    simp [h1]

theorem foldl_snoc_map {α β : Type} (f : α → β) (l : List α) (init : List β) :
    l.foldl (fun acc x => acc ++ [f x]) init = init ++ l.map f := by
  induction l generalizing init with
  | nil => simp
  | cons a l ih => simp [ih]

theorem initServices_eq (n : Int) :
    initServices n = (List.range n.toNat).map (fun (i : Nat) => ({ idx := (i : Int), edges := [] } : service)) := by
  unfold initServices
  rw [foldl_snoc_map (fun i => ({ idx := i, edges := [] } : service)), intRange_zero]
  simp [Function.comp_def]

theorem foldlM_flatMap {σ α β : Type} (f : α → List β) (g : σ → β → Option σ) (l : List α) (s : σ) :
    (l.flatMap f).foldlM g s = l.foldlM (fun s a => (f a).foldlM g s) s := by
  induction l generalizing s with
  | nil => simp
  | cons a l ih =>
    simp only [List.flatMap_cons, List.foldlM_append, List.foldlM_cons]
    cases h : List.foldlM g s (f a) with
    | none => simp
    | some s1 => simp [ih]

/-! ## One pair -/

theorem goRem_cast (a i j : Nat) (h : i < j) :
    goRem (a : Int) ((j : Int) - (i : Int)) = some ((a % (j - i) : Nat) : Int) := by
  unfold goRem
  have h1 : (j : Int) - (i : Int) = ((j - i : Nat) : Int) := by omega
  rw [h1, if_neg (by omega), Int.ofNat_tmod]

theorem goRem_hundred (b : Nat) : goRem (b : Int) 100 = some ((b % 100 : Nat) : Int) := by
  unfold goRem
  rw [if_neg (by decide)]
  exact congrArg some (Int.ofNat_tmod b 100).symm

theorem appendEdge_cast (srvs : services) (i j : Nat) (h : i < srvs.length) :
    appendEdge srvs (i : Int) (j : Int) =
      some (srvs.modify (fun x => { x with edges := x.edges ++ [(j : Int)] }) i) := by
  unfold appendEdge
  rw [if_pos ⟨by omega, by simpa using h⟩]
  simp

theorem edgeStep_cast (draws : Nat → Nat) (p : Int) (i j pos : Nat) (srvs : services)
    (hij : i < j) (hi : i < srvs.length) :
    edgeStep p (i : Int) (j : Int) { r := { draws := draws, pos := pos }, srvs := srvs } =
      some { r := { draws := draws, pos := posAfter draws i j pos },
             srvs := addEdges srvs ((drawPositions draws [(i, j)] pos).filter (accepts draws p)) } := by
  simp only [edgeStep, Rand.next, goRem_cast _ i j hij, goRem_hundred, posAfter, drawPositions,
    accepts, addEdges, List.filter_cons, List.filter_nil, appendEdge_cast srvs i j hi]
  have hc : (((draws pos % (j - i) : Nat) : Int) = 0) ↔ draws pos % (j - i) = 0 := by
    exact_mod_cast Iff.rfl
  by_cases h1 : draws pos % (j - i) = 0
  · rw [if_pos (hc.mpr h1), if_pos h1]
    by_cases h2 : ((draws (pos + 1) % 100 : Nat) : Int) < p
    · simp only [h1, h2, if_true, decide_True, Bool.and_self, List.foldl_cons, List.foldl_nil]
    · simp only [h1, h2, if_false, decide_True, decide_False, Bool.and_false, List.foldl_nil]
      rfl
  · rw [if_neg (fun h => h1 (hc.mp h)), if_neg h1]
    simp only [h1, decide_False, Bool.false_and, List.foldl_nil]
    rfl

/-! ## A list of pairs -/

theorem addEdges_length (srvs : services) (es : List (Nat × Nat × Nat)) :
    (addEdges srvs es).length = srvs.length := by
  unfold addEdges
  induction es generalizing srvs with
  | nil => rfl
  | cons e es ih => simp [ih]

theorem addEdges_append (srvs : services) (es es' : List (Nat × Nat × Nat)) :
    addEdges srvs (es ++ es') = addEdges (addEdges srvs es) es' := by
  simp [addEdges]

theorem drawPositions_append (draws : Nat → Nat) (ps qs : List (Nat × Nat)) (pos : Nat) :
    drawPositions draws (ps ++ qs) pos =
      drawPositions draws ps pos ++ drawPositions draws qs (endPos draws ps pos) := by
  induction ps generalizing pos with
  | nil => rfl
  | cons a ps ih =>
    obtain ⟨i, j⟩ := a
    simp [drawPositions, endPos, ih]

theorem endPos_append (draws : Nat → Nat) (ps qs : List (Nat × Nat)) (pos : Nat) :
    endPos draws (ps ++ qs) pos = endPos draws qs (endPos draws ps pos) := by
  induction ps generalizing pos with
  | nil => rfl
  | cons a ps ih =>
    obtain ⟨i, j⟩ := a
    simp [endPos, ih]

theorem run_pairs (draws : Nat → Nat) (p : Int) (ps : List (Nat × Nat)) (pos : Nat)
    (srvs : services) (hps : ∀ e ∈ ps, e.1 < e.2 ∧ e.1 < srvs.length) :
    ps.foldlM (fun st e => edgeStep p (e.1 : Int) (e.2 : Int) st)
        { r := { draws := draws, pos := pos }, srvs := srvs } =
      some { r := { draws := draws, pos := endPos draws ps pos },
             srvs := addEdges srvs ((drawPositions draws ps pos).filter (accepts draws p)) } := by
  induction ps generalizing pos srvs with
  | nil => rfl
  | cons a ps ih =>
    obtain ⟨i, j⟩ := a
    have ha := hps (i, j) (List.mem_cons_self _ _)
    rw [List.foldlM_cons, edgeStep_cast draws p i j pos srvs ha.1 ha.2]
    simp only [Option.some_bind, Option.bind_eq_bind]
    rw [ih]
    · have h : drawPositions draws ((i, j) :: ps) pos =
          drawPositions draws [(i, j)] pos ++ drawPositions draws ps (posAfter draws i j pos) := rfl
      rw [h, List.filter_append, addEdges_append]
      rfl
    · intro e he
      have := hps e (List.mem_cons_of_mem _ he)
      rw [addEdges_length]
      exact this

theorem mem_pairsLex (n i j : Nat) : (i, j) ∈ pairsLex n ↔ i < j ∧ j < n := by
  simp only [pairsLex, List.mem_flatMap, List.mem_range, List.mem_map, List.mem_range'_1,
    Prod.mk.injEq]
  constructor
  · rintro ⟨a, ha, b, hb, rfl, rfl⟩
    omega
  · rintro ⟨h1, h2⟩
    exact ⟨i, by omega, j, by omega, rfl, rfl⟩

theorem outerLoop_eq (n p : Int) (st : GenState) :
    outerLoop n p st =
      (pairsLex n.toNat).foldlM (fun st e => edgeStep p (e.1 : Int) (e.2 : Int) st) st := by
  unfold outerLoop pairsLex
  rw [foldlM_flatMap, intRange_zero, List.foldlM_map]
  congr 1
  funext s i
  unfold innerLoop
  rw [intRange_succ, List.foldlM_map, List.foldlM_map]

theorem addEdges_getElem (srvs : services) (es : List (Nat × Nat × Nat)) (k : Nat)
    (h : k < (addEdges srvs es).length) (h' : k < srvs.length) :
    (addEdges srvs es)[k] =
      { idx := srvs[k].idx,
        edges := srvs[k].edges ++ (es.filter (fun e => e.1 = k)).map (fun e => (e.2.1 : Int)) } := by
  induction es generalizing srvs with
  | nil => simp [addEdges]
  | cons e es ih =>
    have hl : k < (srvs.modify (fun x => { x with edges := x.edges ++ [(e.2.1 : Int)] }) e.1).length := by
      simpa using h'
    have step : addEdges srvs (e :: es) =
        addEdges (srvs.modify (fun x => { x with edges := x.edges ++ [(e.2.1 : Int)] }) e.1) es := rfl
    rw [getElem_congr_coll step, ih _ (by rw [addEdges_length]; exact hl) hl, List.getElem_modify]
    by_cases hk : e.1 = k
    · simp [hk, List.filter_cons]
    · simp [hk, List.filter_cons]

theorem addEdges_init (n : Nat) (es : List (Nat × Nat × Nat)) :
    addEdges ((List.range n).map (fun (i : Nat) => ({ idx := (i : Int), edges := [] } : service))) es =
      (List.range n).map (fun (i : Nat) =>
        ({ idx := (i : Int),
           edges := (es.filter (fun e => e.1 = i)).map (fun e => (e.2.1 : Int)) } : service)) := by
  apply List.ext_getElem
  · simp [addEdges_length]
  · intro k h1 h2
    have hk : k < n := by simpa using h2
    rw [addEdges_getElem _ _ _ h1 (by simpa using hk)]
    simp

/-- The code computes the graph of the claims and leaves the generator behind
the draws of all pairs. -/
theorem generateRun_eq (source : Int → Nat → Nat) (seed n p : Int) :
    generateRun source seed n p =
      some { r := { draws := source seed, pos := endPos (source seed) (pairsLex n.toNat) 0 },
             srvs := specGraph (source seed) n.toNat p } := by
  unfold generateRun
  rw [outerLoop_eq, initServices_eq, Rand.New, run_pairs]
  · rw [addEdges_init]
    rfl
  · rintro ⟨i, j⟩ he
    have := (mem_pairsLex _ _ _).mp he
    simp only [List.length_map, List.length_range]
    omega

theorem generate_eq (source : Int → Nat → Nat) (seed n p : Int) :
    GenerateRandomServiceMesh source seed n p = some (specGraph (source seed) n.toNat p) := by
  unfold GenerateRandomServiceMesh
  rw [generateRun_eq]
  rfl

/-! ## Properties of the graph of the claims -/

theorem drawPositions_pairs (draws : Nat → Nat) (ps : List (Nat × Nat)) (pos : Nat) :
    (drawPositions draws ps pos).map (fun e => (e.1, e.2.1)) = ps := by
  induction ps generalizing pos with
  | nil => rfl
  | cons a ps ih =>
    obtain ⟨i, j⟩ := a
    simp [drawPositions, ih]

theorem pair_of_mem_drawPositions (draws : Nat → Nat) (ps : List (Nat × Nat)) (pos0 : Nat)
    (e : Nat × Nat × Nat) (h : e ∈ drawPositions draws ps pos0) : (e.1, e.2.1) ∈ ps := by
  have := List.mem_map_of_mem (fun e : Nat × Nat × Nat => (e.1, e.2.1)) h
  rwa [drawPositions_pairs] at this

theorem exists_pos_of_mem (draws : Nat → Nat) (ps : List (Nat × Nat)) (pos0 : Nat)
    (i j : Nat) (h : (i, j) ∈ ps) : ∃ pos, (i, j, pos) ∈ drawPositions draws ps pos0 := by
  rw [← drawPositions_pairs draws ps pos0, List.mem_map] at h
  obtain ⟨⟨a, b, pos⟩, he, heq⟩ := h
  simp only [Prod.mk.injEq] at heq
  obtain ⟨rfl, rfl⟩ := heq
  exact ⟨pos, he⟩

theorem specGraph_length (draws : Nat → Nat) (n : Nat) (p : Int) :
    (specGraph draws n p).length = n := by
  simp [specGraph]

theorem specGraph_getElem (draws : Nat → Nat) (n : Nat) (p : Int) (k : Nat)
    (h : k < (specGraph draws n p).length) :
    (specGraph draws n p)[k] = { idx := (k : Int), edges := specTargets draws n p k } := by
  simp [specGraph]

theorem mem_specGraph (draws : Nat → Nat) (n : Nat) (p : Int) (s : service) :
    s ∈ specGraph draws n p ↔
      ∃ (k : Nat), k < n ∧ s = { idx := (k : Int), edges := specTargets draws n p k } := by
  simp only [specGraph, List.mem_map, List.mem_range]
  constructor
  · rintro ⟨k, hk, rfl⟩
    exact ⟨k, hk, rfl⟩
  · rintro ⟨k, hk, rfl⟩
    exact ⟨k, hk, rfl⟩

theorem mem_specTargets (draws : Nat → Nat) (n : Nat) (p : Int) (i : Nat) (x : Int) :
    x ∈ specTargets draws n p i ↔
      ∃ (j : Nat) (pos : Nat), x = (j : Int) ∧ (i, j, pos) ∈ drawPositions draws (pairsLex n) 0 ∧
        accepts draws p (i, j, pos) = true := by
  simp only [specTargets, specEdges, List.mem_map, List.mem_filter, decide_eq_true_eq]
  constructor
  · rintro ⟨⟨a, j, pos⟩, ⟨⟨hmem, hacc⟩, ha⟩, rfl⟩
    simp only at ha
    subst ha
    exact ⟨j, pos, rfl, hmem, hacc⟩
  · rintro ⟨j, pos, rfl, hmem, hacc⟩
    exact ⟨(i, j, pos), ⟨⟨hmem, hacc⟩, rfl⟩, rfl⟩

theorem specTargets_bounds (draws : Nat → Nat) (n : Nat) (p : Int) (i : Nat) (x : Int)
    (h : x ∈ specTargets draws n p i) : (i : Int) < x ∧ x < (n : Int) := by
  obtain ⟨j, pos, rfl, hmem, _⟩ := (mem_specTargets draws n p i x).mp h
  have := (mem_pairsLex n i j).mp (pair_of_mem_drawPositions draws _ 0 _ hmem)
  omega

theorem hasEdge_specGraph (draws : Nat → Nat) (n : Nat) (p : Int) (a b : Int) :
    hasEdge (specGraph draws n p) a b ↔
      ∃ (i : Nat), i < n ∧ a = (i : Int) ∧ b ∈ specTargets draws n p i := by
  unfold hasEdge
  constructor
  · rintro ⟨s, hs, rfl, hb⟩
    obtain ⟨k, hk, rfl⟩ := (mem_specGraph draws n p s).mp hs
    exact ⟨k, hk, rfl, hb⟩
  · rintro ⟨i, hi, rfl, hb⟩
    exact ⟨_, (mem_specGraph draws n p _).mpr ⟨i, hi, rfl⟩, rfl, hb⟩

theorem hasEdge_lt (draws : Nat → Nat) (n : Nat) (p : Int) (a b : Int)
    (h : hasEdge (specGraph draws n p) a b) : a < b := by
  obtain ⟨i, _, rfl, hb⟩ := (hasEdge_specGraph draws n p a b).mp h
  exact (specTargets_bounds draws n p i b hb).1

theorem transGen_lt (draws : Nat → Nat) (n : Nat) (p : Int) (a b : Int)
    (h : Relation.TransGen (hasEdge (specGraph draws n p)) a b) : a < b := by
  induction h with
  | single h => exact hasEdge_lt draws n p _ _ h
  | tail _ h ih => exact lt_trans ih (hasEdge_lt draws n p _ _ h)

theorem pairsLex_pairwise (n : Nat) :
    (pairsLex n).Pairwise (fun a b => a.1 < b.1 ∨ (a.1 = b.1 ∧ a.2 < b.2)) := by
  unfold pairsLex
  rw [List.pairwise_flatMap]
  constructor
  · intro i _
    rw [List.pairwise_map]
    exact (List.pairwise_lt_range' (i + 1) (n - (i + 1))).imp (fun h => Or.inr ⟨rfl, h⟩)
  · refine (List.pairwise_lt_range n).imp ?_
    intro a b hab x hx y hy
    simp only [List.mem_map] at hx hy
    obtain ⟨_, _, rfl⟩ := hx
    obtain ⟨_, _, rfl⟩ := hy
    exact Or.inl hab

theorem specTargets_pairwise (draws : Nat → Nat) (n : Nat) (p : Int) (i : Nat) :
    (specTargets draws n p i).Pairwise (fun x y => x < y) := by
  unfold specTargets specEdges
  rw [List.pairwise_map]
  have h0 : (drawPositions draws (pairsLex n) 0).Pairwise
      (fun a b => a.1 < b.1 ∨ (a.1 = b.1 ∧ a.2.1 < b.2.1)) := by
    have h := pairsLex_pairwise n
    rw [← drawPositions_pairs draws (pairsLex n) 0, List.pairwise_map] at h
    exact h
  have h1 := (h0.filter (accepts draws p)).filter (fun e => decide (e.1 = i))
  refine h1.imp_of_mem ?_
  intro a b ha hb hab
  have ha1 : a.1 = i := by simpa using (List.mem_filter.mp ha).2
  have hb1 : b.1 = i := by simpa using (List.mem_filter.mp hb).2
  rcases hab with h | ⟨_, h⟩
  · omega
  · exact_mod_cast h

theorem specEdges_congr (d d' : Nat → Nat) (p : Int) (ps : List (Nat × Nat)) (pos : Nat)
    (h : ∀ k, k < pos + 2 * ps.length → d' k = d k) :
    (drawPositions d' ps pos).filter (accepts d' p) = (drawPositions d ps pos).filter (accepts d p) := by
  induction ps generalizing pos with
  | nil => rfl
  | cons a ps ih =>
    obtain ⟨i, j⟩ := a
    have h0 : d' pos = d pos := h pos (by simp only [List.length_cons]; omega)
    have h1 : d' (pos + 1) = d (pos + 1) := h (pos + 1) (by simp only [List.length_cons]; omega)
    have hp : posAfter d' i j pos = posAfter d i j pos := by simp only [posAfter, h0]
    have hle : posAfter d i j pos ≤ pos + 2 := by
      unfold posAfter
      split <;> omega
    have ha : accepts d' p (i, j, pos) = accepts d p (i, j, pos) := by
      simp only [accepts, h0, h1]
    simp only [drawPositions, List.filter_cons, ha, hp]
    rw [ih (posAfter d i j pos)
      (fun k hk => h k (by simp only [List.length_cons]; omega))]

theorem specGraph_congr (d d' : Nat → Nat) (n : Nat) (p : Int)
    (h : ∀ k, k < 2 * (pairsLex n).length → d' k = d k) :
    specGraph d' n p = specGraph d n p := by
  have he : specEdges d' n p = specEdges d n p :=
    specEdges_congr d d' p (pairsLex n) 0 (fun k hk => h k (by omega))
  simp only [specGraph, specTargets, he]

theorem accepts_mono (draws : Nat → Nat) (p p' : Int) (h : p ≤ p') (e : Nat × Nat × Nat)
    (he : accepts draws p e = true) : accepts draws p' e = true := by
  simp only [accepts, Bool.and_eq_true, decide_eq_true_eq] at he ⊢
  exact ⟨he.1, lt_of_lt_of_le he.2 h⟩

theorem specTargets_sublist (draws : Nat → Nat) (n : Nat) (p p' : Int) (h : p ≤ p') (i : Nat) :
    (specTargets draws n p i).Sublist (specTargets draws n p' i) := by
  unfold specTargets specEdges
  exact ((List.monotone_filter_right _ (accepts_mono draws p p' h)).filter _).map _

theorem edgeCount_specGraph (draws : Nat → Nat) (n : Nat) (p : Int) :
    edgeCount (specGraph draws n p) =
      ((List.range n).map (fun i => (specTargets draws n p i).length)).sum := by
  simp [edgeCount, specGraph, Function.comp_def]

theorem pairsLex_nodup (n : Nat) : (pairsLex n).Nodup := by
  refine (pairsLex_pairwise n).imp ?_
  intro a b h hab
  subst hab
  omega

theorem drawPositions_pos_unique (draws : Nat → Nat) (n i j pos pos' : Nat)
    (h : (i, j, pos) ∈ drawPositions draws (pairsLex n) 0)
    (h' : (i, j, pos') ∈ drawPositions draws (pairsLex n) 0) : pos = pos' := by
  have hn : ((drawPositions draws (pairsLex n) 0).map (fun e => (e.1, e.2.1))).Nodup := by
    rw [drawPositions_pairs]
    exact pairsLex_nodup n
  have := List.inj_on_of_nodup_map hn h h' rfl
  simpa using this

theorem hasEdge_specGraph_iff (draws : Nat → Nat) (n : Nat) (p : Int) (i j : Nat) :
    hasEdge (specGraph draws n p) (i : Int) (j : Int) ↔
      ∃ pos, (i, j, pos) ∈ drawPositions draws (pairsLex n) 0 ∧
        draws pos % (j - i) = 0 ∧ ((draws (pos + 1) % 100 : Nat) : Int) < p := by
  rw [hasEdge_specGraph]
  constructor
  · rintro ⟨i', _, hi, hb⟩
    obtain ⟨j', pos, hj, hmem, hacc⟩ := (mem_specTargets draws n p i' _).mp hb
    have hi' : i = i' := by exact_mod_cast hi
    have hj' : j = j' := by exact_mod_cast hj
    subst hi' hj'
    simp only [accepts, Bool.and_eq_true, decide_eq_true_eq] at hacc
    exact ⟨pos, hmem, hacc⟩
  · rintro ⟨pos, hmem, hacc⟩
    have hlt := (mem_pairsLex n i j).mp (pair_of_mem_drawPositions draws _ 0 _ hmem)
    refine ⟨i, by omega, rfl, (mem_specTargets draws n p i _).mpr ⟨j, pos, rfl, hmem, ?_⟩⟩
    simpa only [accepts, Bool.and_eq_true, decide_eq_true_eq] using hacc

theorem specTargets_zero (draws : Nat → Nat) (n : Nat) (i : Nat) :
    specTargets draws n 0 i = [] := by
  have h : specEdges draws n 0 = [] := by
    unfold specEdges
    rw [List.filter_eq_nil_iff]
    intro e _
    simp only [accepts, Bool.and_eq_true, decide_eq_true_eq, not_and, not_lt]
    intro _
    exact Int.ofNat_nonneg _
  simp [specTargets, h]

/-! ## The claims -/

/-- C1: every edge `j` stored in the edge list of node `i` of the graph returned by
`GenerateRandomServiceMesh` satisfies `i < j < numServices`, for every random
stream, `numServices` and `percentEdges`; so every edge goes from a lower to a
strictly higher index and no node reaches itself along edges. -/
theorem C1_edges_point_upwards (source : Int → Nat → Nat) (seed numServices percentEdges : Int) :
    ∃ g, GenerateRandomServiceMesh source seed numServices percentEdges = some g ∧
      (∀ (i : Nat) (hi : i < g.length), g[i].idx = (i : Int) ∧
        ∀ j ∈ g[i].edges, (i : Int) < j ∧ j < numServices) ∧
      (∀ a b, hasEdge g a b → a < b) ∧
      (∀ a, ¬ Relation.TransGen (hasEdge g) a a) := by
  refine ⟨_, generate_eq source seed numServices percentEdges, ?_, ?_, ?_⟩
  · intro i hi
    rw [specGraph_getElem]
    refine ⟨rfl, ?_⟩
    intro j hj
    have := specTargets_bounds _ _ _ _ _ hj
    omega
  · intro a b h
    exact hasEdge_lt _ _ _ _ _ h
  · intro a h
    exact lt_irrefl a (transGen_lt _ _ _ _ _ h)

/-- C2: `GenerateRandomServiceMesh` returns the graph obtained by visiting the pairs
`(i, j)`, `0 ≤ i < j < numServices`, in lexicographic order along one random
stream: the pair whose first draw `a` passes `a mod (j - i) == 0` takes a second
draw `b`, the edge `i -> j` exists if and only if both `a mod (j - i) == 0` and
`b mod 100 < percentEdges` hold, and the edge list of node `i` is the ascending
list of those `j`. -/
theorem C2_generate_refines_pair_scan (source : Int → Nat → Nat)
    (seed numServices percentEdges : Int) :
    GenerateRandomServiceMesh source seed numServices percentEdges =
        some (specGraph (source seed) numServices.toNat percentEdges) ∧
      (∀ i j : Nat, (i, j) ∈ pairsLex numServices.toNat ↔ i < j ∧ (j : Int) < numServices) ∧
      (pairsLex numServices.toNat).Pairwise (fun a b => a.1 < b.1 ∨ (a.1 = b.1 ∧ a.2 < b.2)) ∧
      (∀ i j : Nat,
        hasEdge (specGraph (source seed) numServices.toNat percentEdges) (i : Int) (j : Int) ↔
          ∃ pos, (i, j, pos) ∈ drawPositions (source seed) (pairsLex numServices.toNat) 0 ∧
            source seed pos % (j - i) = 0 ∧
            ((source seed (pos + 1) % 100 : Nat) : Int) < percentEdges) ∧
      (∀ i : Nat, (specTargets (source seed) numServices.toNat percentEdges i).Pairwise
        (fun x y => x < y)) := by
  refine ⟨generate_eq source seed numServices percentEdges, ?_, pairsLex_pairwise _, ?_, ?_⟩
  · intro i j
    rw [mem_pairsLex]
    omega
  · intro i j
    exact hasEdge_specGraph_iff _ _ _ i j
  · intro i
    exact specTargets_pairwise _ _ _ i

/-- C3: `GenerateRandomServiceMesh` is deterministic: for every seed, `numServices`
and `percentEdges` it returns one graph, the same at every invocation, and the
graph depends on the generator only through the draws that the pairs can
consume: generators whose streams for the seed agree on these draws give
identical graphs. -/
theorem C3_generate_deterministic (source : Int → Nat → Nat)
    (seed numServices percentEdges : Int) :
    (∃ g, GenerateRandomServiceMesh source seed numServices percentEdges = some g ∧
      ∀ g1 g2, GenerateRandomServiceMesh source seed numServices percentEdges = some g1 →
        GenerateRandomServiceMesh source seed numServices percentEdges = some g2 →
        g1 = g ∧ g2 = g) ∧
      (∀ source2 : Int → Nat → Nat,
        (∀ k, k < 2 * (pairsLex numServices.toNat).length → source2 seed k = source seed k) →
        GenerateRandomServiceMesh source2 seed numServices percentEdges =
          GenerateRandomServiceMesh source seed numServices percentEdges) := by
  refine ⟨⟨_, generate_eq source seed numServices percentEdges, ?_⟩, ?_⟩
  · intro g1 g2 h1 h2
    rw [generate_eq] at h1 h2
    exact ⟨(Option.some.inj h1).symm, (Option.some.inj h2).symm⟩
  · intro source2 h
    rw [generate_eq, generate_eq, specGraph_congr _ _ _ _ h]

/-- C4: in every generated graph no node lists its own index, every edge list is
strictly increasing (so no target occurs twice), and an edge and its reverse
never exist together: each unordered pair contributes at most one edge. -/
theorem C4_no_self_loop_no_duplicate (source : Int → Nat → Nat)
    (seed numServices percentEdges : Int) :
    ∃ g, GenerateRandomServiceMesh source seed numServices percentEdges = some g ∧
      (∀ s ∈ g, s.idx ∉ s.edges ∧ s.edges.Pairwise (fun x y => x < y) ∧ s.edges.Nodup) ∧
      (∀ a b, hasEdge g a b → ¬ hasEdge g b a) := by
  refine ⟨_, generate_eq source seed numServices percentEdges, ?_, ?_⟩
  · intro s hs
    obtain ⟨k, _, rfl⟩ := (mem_specGraph _ _ _ s).mp hs
    refine ⟨?_, specTargets_pairwise _ _ _ k, ?_⟩
    · intro h
      have := (specTargets_bounds _ _ _ _ _ h).1
      simp only [lt_self_iff_false] at this
    · exact (specTargets_pairwise _ _ _ k).imp (fun h => ne_of_lt h)
  · intro a b h h'
    have h1 := hasEdge_lt _ _ _ _ _ h
    have h2 := hasEdge_lt _ _ _ _ _ h'
    omega

/-- C5: `GenerateRandomServiceMesh` returns exactly `max(numServices, 0)` nodes, the
node at position `k` has `idx = k`, and a negative or zero `numServices` yields the
empty graph; no input makes the function fail. -/
theorem C5_node_count_and_indices (source : Int → Nat → Nat)
    (seed numServices percentEdges : Int) :
    ∃ g, GenerateRandomServiceMesh source seed numServices percentEdges = some g ∧
      (g.length : Int) = max numServices 0 ∧
      (∀ (k : Nat) (hk : k < g.length), g[k].idx = (k : Int)) ∧
      (numServices ≤ 0 → g = []) := by
  refine ⟨_, generate_eq source seed numServices percentEdges, ?_, ?_, ?_⟩
  · rw [specGraph_length]
    omega
  · intro k hk
    rw [specGraph_getElem]
  · intro h
    have h0 : numServices.toNat = 0 := by omega
    rw [h0]
    rfl

/-- C6: with `percentEdges = 0` every node of the generated graph has an empty edge
list, for every random stream and every `numServices`. -/
theorem C6_percent_zero_no_edges (source : Int → Nat → Nat) (seed numServices : Int) :
    ∃ g, GenerateRandomServiceMesh source seed numServices 0 = some g ∧
      (∀ s ∈ g, s.edges = []) ∧ edgeCount g = 0 := by
  refine ⟨_, generate_eq source seed numServices 0, ?_, ?_⟩
  · intro s hs
    obtain ⟨k, _, rfl⟩ := (mem_specGraph _ _ _ s).mp hs
    exact specTargets_zero _ _ k
  · rw [edgeCount_specGraph]
    simp [specTargets_zero]

/-- C7: with `percentEdges = 100` the generated graph has the edge `i -> j` exactly
when the first draw `a` taken for the pair `(i, j)` satisfies `a mod (j - i) == 0`;
every pair `i < j < numServices` takes such a draw, and every consecutive pair
`(i, i + 1)` below `numServices` is an edge. -/
theorem C7_percent_hundred_locality_only (source : Int → Nat → Nat) (seed numServices : Int) :
    ∃ g, GenerateRandomServiceMesh source seed numServices 100 = some g ∧
      (∀ i j pos : Nat, (i, j, pos) ∈ drawPositions (source seed) (pairsLex numServices.toNat) 0 →
        (hasEdge g (i : Int) (j : Int) ↔ source seed pos % (j - i) = 0)) ∧
      (∀ i j : Nat, i < j → (j : Int) < numServices →
        ∃ pos, (i, j, pos) ∈ drawPositions (source seed) (pairsLex numServices.toNat) 0) ∧
      (∀ i : Nat, (i : Int) + 1 < numServices → hasEdge g (i : Int) ((i : Int) + 1)) := by
  have hpos : ∀ i j : Nat, i < j → (j : Int) < numServices →
      ∃ pos, (i, j, pos) ∈ drawPositions (source seed) (pairsLex numServices.toNat) 0 := by
    intro i j hij hj
    exact exists_pos_of_mem _ _ 0 i j ((mem_pairsLex _ i j).mpr ⟨hij, by omega⟩)
  have hiff : ∀ i j pos : Nat,
      (i, j, pos) ∈ drawPositions (source seed) (pairsLex numServices.toNat) 0 →
      (hasEdge (specGraph (source seed) numServices.toNat 100) (i : Int) (j : Int) ↔
        source seed pos % (j - i) = 0) := by
    intro i j pos hmem
    rw [hasEdge_specGraph_iff]
    constructor
    · rintro ⟨pos', hmem', h, _⟩
      rw [drawPositions_pos_unique _ _ _ _ _ _ hmem hmem']
      exact h
    · intro h
      refine ⟨pos, hmem, h, ?_⟩
      have : source seed (pos + 1) % 100 < 100 := Nat.mod_lt _ (by decide)
      omega
  refine ⟨_, generate_eq source seed numServices 100, hiff, hpos, ?_⟩
  intro i hi
  obtain ⟨pos, hmem⟩ := hpos i (i + 1) (by omega) (by omega)
  have := (hiff i (i + 1) pos hmem).mpr (by simp [Nat.mod_one])
  exact_mod_cast this

/-- C8: edge density is monotone in `percentEdges`: for `p ≤ p2`, the same random
stream and the same `numServices`, every edge of the graph generated with `p` is
an edge of the graph generated with `p2`, node by node the edge list for `p` is a
sublist of the one for `p2`, and the edge count does not decrease. -/
theorem C8_density_monotone (source : Int → Nat → Nat) (seed numServices p p2 : Int)
    (h : p ≤ p2) :
    ∃ g g2, GenerateRandomServiceMesh source seed numServices p = some g ∧
      GenerateRandomServiceMesh source seed numServices p2 = some g2 ∧
      (∀ a b, hasEdge g a b → hasEdge g2 a b) ∧
      List.Forall₂ (fun s s2 => s.idx = s2.idx ∧ s.edges.Sublist s2.edges) g g2 ∧
      edgeCount g ≤ edgeCount g2 := by
  refine ⟨_, _, generate_eq source seed numServices p, generate_eq source seed numServices p2,
    ?_, ?_, ?_⟩
  · intro a b hab
    rw [hasEdge_specGraph] at hab ⊢
    obtain ⟨i, hi, ha, hb⟩ := hab
    exact ⟨i, hi, ha, (specTargets_sublist _ _ p p2 h i).subset hb⟩
  · unfold specGraph
    rw [List.forall₂_map_left_iff, List.forall₂_map_right_iff, List.forall₂_same]
    intro i _
    exact ⟨rfl, specTargets_sublist _ _ p p2 h i⟩
  · rw [edgeCount_specGraph, edgeCount_specGraph]
    apply List.sum_le_sum
    intro i _
    exact (specTargets_sublist _ _ p p2 h i).length_le

/-- Witness of C8: the stream `0, 1, 2, ...`, three services, 10 and 60 percent. -/
theorem C8_density_monotone_witness :
    (10 : Int) ≤ 60 ∧
      ∃ g g2, GenerateRandomServiceMesh (fun _ k => k) 1 3 10 = some g ∧
        GenerateRandomServiceMesh (fun _ k => k) 1 3 60 = some g2 ∧
        (∀ a b, hasEdge g a b → hasEdge g2 a b) ∧
        List.Forall₂ (fun s s2 => s.idx = s2.idx ∧ s.edges.Sublist s2.edges) g g2 ∧
        edgeCount g ≤ edgeCount g2 :=
  ⟨by decide, C8_density_monotone (fun _ k => k) 1 3 10 60 (by decide)⟩

/-! ## Rendering into a sink that accepts every write -/

theorem Write_accepting (w : Writer) (p : String) (h : w.accepting) :
    w.Write p = ({ w with out := w.out ++ p, calls := w.calls + 1 }, none) := by
  unfold Writer.Write
  rw [h w.calls]

theorem execField_accepting (data : Data) (key : String) (w : Writer) (text : String)
    (h : w.accepting) (hr : renderField data key = .ok text) :
    ∃ w2, execField data key w = (w2, none) ∧ w2.out = w.out ++ text ∧ w2.reject = w.reject := by
  unfold renderField at hr
  unfold execField
  cases hl : data.lookup key with
  | none => simp [hl] at hr
  | some v =>
    simp only [hl, Except.ok.injEq] at hr
    subst hr
    exact ⟨_, Write_accepting w v h, rfl, rfl⟩

theorem execLeaves_accepting (data : Data) (body : List Leaf) (w : Writer) (text : String)
    (h : w.accepting) (hr : renderLeaves data body = .ok text) :
    ∃ w2, execLeaves data body w = (w2, none) ∧ w2.out = w.out ++ text ∧ w2.reject = w.reject := by
  induction body generalizing w text with
  | nil =>
    simp only [renderLeaves, Except.ok.injEq] at hr
    subst hr
    exact ⟨w, rfl, by simp, rfl⟩
  | cons l rest ih =>
    simp only [renderLeaves, bind, Except.bind, pure, Except.pure] at hr
    cases ha : l.render data with
    | error e => simp [ha] at hr
    | ok a =>
      cases hb : renderLeaves data rest with
      | error e => simp [ha, hb] at hr
      | ok b =>
        simp only [ha, hb, Except.ok.injEq] at hr
        subst hr
        have h1 : ∃ w1, l.exec data w = (w1, none) ∧ w1.out = w.out ++ a ∧ w1.reject = w.reject := by
          cases l with
          | text s =>
            simp only [Leaf.render, Except.ok.injEq] at ha
            subst ha
            exact ⟨_, Write_accepting w s h, rfl, rfl⟩
          | field key => exact execField_accepting data key w a h ha
        obtain ⟨w1, he1, ho1, hj1⟩ := h1
        obtain ⟨w2, he2, ho2, hj2⟩ := ih w1 b (fun k => by rw [hj1]; exact h k) hb
        refine ⟨w2, ?_, ?_, ?_⟩
        · simp only [execLeaves, he1, he2]
        · rw [ho2, ho1, String.append_assoc]
        · rw [hj2, hj1]

theorem Node_exec_accepting (data : Data) (n : Node) (w : Writer) (text : String)
    (h : w.accepting) (hr : n.render data = .ok text) :
    ∃ w2, n.exec data w = (w2, none) ∧ w2.out = w.out ++ text ∧ w2.reject = w.reject := by
  cases n with
  | text s =>
    simp only [Node.render, Except.ok.injEq] at hr
    subst hr
    exact ⟨_, Write_accepting w s h, rfl, rfl⟩
  | field key => exact execField_accepting data key w text h hr
  | ifField key body =>
    simp only [Node.render, renderField, bind, Except.bind, pure, Except.pure] at hr
    simp only [Node.exec]
    cases hl : data.lookup key with
    | none => simp [hl] at hr
    | some v =>
      simp only [hl] at hr ⊢
      by_cases hv : v = ""
      · simp only [hv, if_true, Except.ok.injEq] at hr ⊢
        subst hr
        exact ⟨w, rfl, by simp, rfl⟩
      · simp only [hv, if_false] at hr ⊢
        exact execLeaves_accepting data body w text h hr

theorem Execute_accepting (data : Data) (t : List Node) (w : Writer) (text : String)
    (h : w.accepting) (hr : renderNodes data t = .ok text) :
    ∃ w2, Template.Execute t w data = (w2, none) ∧ w2.out = w.out ++ text ∧
      w2.reject = w.reject := by
  induction t generalizing w text with
  | nil =>
    simp only [renderNodes, Except.ok.injEq] at hr
    subst hr
    exact ⟨w, rfl, by simp, rfl⟩
  | cons n rest ih =>
    simp only [renderNodes, bind, Except.bind, pure, Except.pure] at hr
    cases ha : n.render data with
    | error e => simp [ha] at hr
    | ok a =>
      cases hb : renderNodes data rest with
      | error e => simp [ha, hb] at hr
      | ok b =>
        simp only [ha, hb, Except.ok.injEq] at hr
        subst hr
        obtain ⟨w1, he1, ho1, hj1⟩ := Node_exec_accepting data n w a h ha
        obtain ⟨w2, he2, ho2, hj2⟩ := ih w1 b (fun k => by rw [hj1]; exact h k) hb
        refine ⟨w2, ?_, ?_, ?_⟩
        · simp only [Template.Execute, he1, he2]
        · rw [ho2, ho1, String.append_assoc]
        · rw [hj2, hj1]

theorem render_namespaceTemplate (conf : serviceConf) :
    renderNodes [("namespace", conf.namespace_), ("mesh", conf.mesh)] namespaceTemplate =
      .ok (namespaceDoc conf) := by
  simp [renderNodes, namespaceTemplate, Node.render, renderField, List.lookup, bind, Except.bind,
    pure, Except.pure, namespaceDoc, String.append_assoc]

theorem render_clientTemplate (conf : serviceConf) :
    renderNodes
        [("namespace", conf.namespace_), ("mesh", conf.mesh), ("uri", toUri 0 conf.namespace_)]
        clientTemplate =
      .ok (clientDoc conf) := by
  by_cases h : conf.namespace_ = ""
  · simp [renderNodes, renderLeaves, clientTemplate, Node.render, Leaf.render, renderField,
      List.lookup, bind, Except.bind, pure, Except.pure, clientDoc, namespaceLine,
      String.append_assoc, h]
    rw [← String.append_assoc]
    rfl
  · simp [renderNodes, renderLeaves, clientTemplate, Node.render, Leaf.render, renderField,
      List.lookup, bind, Except.bind, pure, Except.pure, clientDoc, namespaceLine,
      String.append_assoc, h]

theorem render_srvTemplate (s : service) (namespace_ mesh image : String) :
    renderNodes
        [("name", toName s.idx), ("namespace", namespace_), ("mesh", mesh),
          ("uris", s.toUris namespace_), ("image", image)]
        srvTemplate =
      .ok (serviceDoc s namespace_ mesh image) := by
  by_cases h : namespace_ = "" <;>
    simp [renderNodes, renderLeaves, srvTemplate, Node.render, Leaf.render, renderField,
      List.lookup, bind, Except.bind, pure, Except.pure, serviceDoc, namespaceLine,
      String.append_assoc, h]

theorem foldl_append_init (init : String) (l : List String) :
    l.foldl (fun r s => r ++ s) init = init ++ l.foldl (fun r s => r ++ s) "" := by
  induction l generalizing init with
  | nil => simp
  | cons a l ih =>
    rw [List.foldl_cons, List.foldl_cons, ih (init ++ a), ih ("" ++ a)]
    simp [String.append_assoc]

theorem join_cons (a : String) (l : List String) :
    String.join (a :: l) = a ++ String.join l := by
  unfold String.join
  rw [List.foldl_cons, foldl_append_init]
  simp

theorem service_ToYaml_accepting (s : service) (w : Writer) (namespace_ mesh image : String)
    (h : w.accepting) :
    ∃ w2, s.ToYaml w namespace_ mesh image = (w2, none) ∧
      w2.out = w.out ++ serviceDoc s namespace_ mesh image ∧ w2.reject = w.reject :=
  Execute_accepting _ srvTemplate w _ h (render_srvTemplate s namespace_ mesh image)

theorem nodes_accepting (conf : serviceConf) (s : services) (w : Writer) (h : w.accepting) :
    ∃ w2, services.ToYaml.nodes conf s w = (w2, none) ∧
      w2.out = w.out ++ String.join
        (s.map (fun srv => "---" ++ serviceDoc srv conf.namespace_ conf.mesh conf.image)) ∧
      w2.reject = w.reject := by
  induction s generalizing w with
  | nil => exact ⟨w, rfl, by simp [String.join], rfl⟩
  | cons srv rest ih =>
    have h0 : (w.Write "---").1.accepting := by
      rw [Write_accepting w _ h]
      exact h
    obtain ⟨w1, he1, ho1, hj1⟩ :=
      service_ToYaml_accepting srv (w.Write "---").1 conf.namespace_ conf.mesh conf.image h0
    obtain ⟨w2, he2, ho2, hj2⟩ := ih w1 (fun k => by rw [hj1]; exact h0 k)
    refine ⟨w2, ?_, ?_, ?_⟩
    · rw [Write_accepting w _ h] at he1
      simp only [services.ToYaml.nodes, Write_accepting w _ h, he1, he2]
    · rw [ho2, ho1, Write_accepting w _ h]
      simp only [List.map_cons, join_cons, String.append_assoc]
    · rw [hj2, hj1, Write_accepting w _ h]

theorem generated_indices (draws : Nat → Nat) (n : Nat) (p : Int) :
    (specGraph draws n p).map (fun s => s.idx) = (List.range n).map (fun (k : Nat) => (k : Int)) := by
  simp [specGraph, Function.comp_def]

/-- C9: into a sink that accepts every write, `services.ToYaml` returns no error and
writes exactly the namespace+mesh document pair, then the load-generator document
if and only if `conf.withGenerator` is true, then for each node, in the order of
the sequence, the separator `---` followed by the workload+Service pair of that
node: one pair per node.  The nodes of a generated graph come in ascending index
order `0, 1, ...`. -/
theorem C9_ToYaml_writes_all_documents (s : services) (conf : serviceConf) (w : Writer)
    (hw : ∀ k, w.reject k = none) :
    (∃ w2, services.ToYaml s w conf = (w2, none) ∧
      w2.out = w.out ++ namespaceDoc conf ++
        (if conf.withGenerator = true then clientDoc conf else "") ++
        String.join
          (s.map (fun srv => "---" ++ serviceDoc srv conf.namespace_ conf.mesh conf.image))) ∧
      (s.map (fun srv => "---" ++ serviceDoc srv conf.namespace_ conf.mesh conf.image)).length =
        s.length ∧
      (∀ (source : Int → Nat → Nat) (seed numServices percentEdges : Int),
        ∃ g, GenerateRandomServiceMesh source seed numServices percentEdges = some g ∧
          g.map (fun srv => srv.idx) =
            (List.range numServices.toNat).map (fun (k : Nat) => (k : Int))) := by
  refine ⟨?_, by simp, fun source seed n p => ⟨_, generate_eq source seed n p, generated_indices _ _ _⟩⟩
  obtain ⟨w1, he1, ho1, hj1⟩ := Execute_accepting _ namespaceTemplate w _ hw
    (render_namespaceTemplate conf)
  have hw1 : w1.accepting := fun k => by rw [hj1]; exact hw k
  unfold services.ToYaml
  rw [he1]
  by_cases hg : conf.withGenerator = true
  · obtain ⟨w2, he2, ho2, hj2⟩ := Execute_accepting _ clientTemplate w1 _ hw1
      (render_clientTemplate conf)
    have hw2 : w2.accepting := fun k => by rw [hj2]; exact hw1 k
    obtain ⟨w3, he3, ho3, _⟩ := nodes_accepting conf s w2 hw2
    refine ⟨w3, ?_, ?_⟩
    · simp only [hg, if_true, he2, he3]
    · rw [ho3, ho2, ho1, if_pos hg]
  · obtain ⟨w3, he3, ho3, _⟩ := nodes_accepting conf s w1 hw1
    refine ⟨w3, ?_, ?_⟩
    · simp only [hg, if_false, he3]
      rfl
    · rw [ho3, ho1, if_neg hg]
      simp

/-- Witness of C9: the three-node graph, the default configuration (no load
generator) and an empty sink that accepts every write. -/
theorem C9_ToYaml_writes_all_documents_witness :
    (∀ k, acceptingSink.reject k = none) ∧
      ((∃ w2, services.ToYaml threeNodes acceptingSink defaultConf = (w2, none) ∧
        w2.out = acceptingSink.out ++ namespaceDoc defaultConf ++
          (if defaultConf.withGenerator = true then clientDoc defaultConf else "") ++
          String.join
            (threeNodes.map (fun srv =>
              "---" ++ serviceDoc srv defaultConf.namespace_ defaultConf.mesh defaultConf.image))) ∧
        (threeNodes.map (fun srv =>
          "---" ++ serviceDoc srv defaultConf.namespace_ defaultConf.mesh defaultConf.image)).length =
          threeNodes.length ∧
        (∀ (source : Int → Nat → Nat) (seed numServices percentEdges : Int),
          ∃ g, GenerateRandomServiceMesh source seed numServices percentEdges = some g ∧
            g.map (fun srv => srv.idx) =
              (List.range numServices.toNat).map (fun (k : Nat) => (k : Int)))) :=
  ⟨fun _ => rfl, C9_ToYaml_writes_all_documents threeNodes defaultConf acceptingSink (fun _ => rfl)⟩

/-- C10: `toUri(idx, ns)` is `"http://" ++ toName(idx) ++ "_" ++ ns ++ "_svc_80.mesh:80"`
for every index and namespace, and for the index 7 and the namespace `kuma-test`
it is `http://srv-007_kuma-test_svc_80.mesh:80`. -/
theorem C10_toUri_format :
    (∀ (idx : Int) (ns : String),
      toUri idx ns = "http://" ++ toName idx ++ "_" ++ ns ++ "_svc_80.mesh:80") ∧
      toName 7 = "srv-007" ∧
      toUri 7 "kuma-test" = "http://srv-007_kuma-test_svc_80.mesh:80" :=
  ⟨fun _ _ => rfl, by decide, by decide⟩

/-! ## Joined strings (`strings.Join`) -/

theorem intercalate_go_append (x acc sep : String) (l : List String) :
    String.intercalate.go (x ++ acc) sep l = x ++ String.intercalate.go acc sep l := by
  induction l generalizing acc with
  | nil => rfl
  | cons a l ih =>
    simp only [String.intercalate.go]
    rw [String.append_assoc, String.append_assoc, ih, ← String.append_assoc]

theorem intercalate_cons_cons (sep a b : String) (rest : List String) :
    String.intercalate sep (a :: b :: rest) = a ++ sep ++ String.intercalate sep (b :: rest) := by
  simp only [String.intercalate, String.intercalate.go]
  rw [intercalate_go_append]

theorem intercalate_comma (l : List String) : String.intercalate "," l = commaJoined l := by
  induction l with
  | nil => rfl
  | cons a l ih =>
    cases l with
    | nil => rfl
    | cons b rest => rw [intercalate_cons_cons, ih, commaJoined]

theorem toUris_eq (s : service) (ns : String) :
    s.toUris ns = String.intercalate "," (s.edges.map (fun e => toUri e ns)) := by
  unfold service.toUris
  rw [foldl_snoc_map (fun e => toUri e ns)]
  rfl

/-- C11: `service.toUris` returns the URIs `toUri(e, namespace)` of the outgoing edges
`e` of the node, in the order of the edge list, separated by single commas with
no separator in front or behind; a node without outgoing edges gives the empty
string, a node with one edge gives the URI alone. -/
theorem C11_toUris_comma_joined :
    (∀ (s : service) (ns : String),
      s.toUris ns = commaJoined (s.edges.map (fun e => toUri e ns))) ∧
      (∀ (idx : Int) (ns : String), ({ idx := idx, edges := [] } : service).toUris ns = "") ∧
      (∀ (idx e : Int) (ns : String),
        ({ idx := idx, edges := [e] } : service).toUris ns = toUri e ns) ∧
      (∀ (idx e : Int) (rest : List Int) (ns : String),
        ({ idx := idx, edges := e :: rest } : service).toUris ns =
          toUri e ns ++ String.join (rest.map (fun x => "," ++ toUri x ns))) := by
  have h : ∀ (s : service) (ns : String),
      s.toUris ns = commaJoined (s.edges.map (fun e => toUri e ns)) := by
    intro s ns
    rw [toUris_eq, intercalate_comma]
  refine ⟨h, fun idx ns => by rw [h]; rfl, fun idx e ns => by rw [h]; rfl, ?_⟩
  intro idx e rest ns
  rw [h]
  simp only
  induction rest generalizing e with
  | nil => simp [commaJoined, String.join]
  | cons b rest ih =>
    have ih2 := ih b
    simp only [List.map_cons] at ih2
    simp only [List.map_cons, commaJoined, ih2, join_cons, String.append_assoc]

/-! ## The text of the documents -/

theorem services_ToYaml_accepting (s : services) (conf : serviceConf) (w : Writer)
    (hw : w.accepting) :
    ∃ w2, services.ToYaml s w conf = (w2, none) ∧
      w2.out = w.out ++ namespaceDoc conf ++
        (if conf.withGenerator = true then clientDoc conf else "") ++
        String.join
          (s.map (fun srv => "---" ++ serviceDoc srv conf.namespace_ conf.mesh conf.image)) := by
  obtain ⟨w1, he1, ho1, hj1⟩ := Execute_accepting _ namespaceTemplate w _ hw
    (render_namespaceTemplate conf)
  have hw1 : w1.accepting := fun k => by rw [hj1]; exact hw k
  unfold services.ToYaml
  rw [he1]
  by_cases hg : conf.withGenerator = true
  · obtain ⟨w2, he2, ho2, hj2⟩ := Execute_accepting _ clientTemplate w1 _ hw1
      (render_clientTemplate conf)
    have hw2 : w2.accepting := fun k => by rw [hj2]; exact hw1 k
    obtain ⟨w3, he3, ho3, _⟩ := nodes_accepting conf s w2 hw2
    refine ⟨w3, ?_, ?_⟩
    · simp only [hg, if_true, he2, he3]
    · rw [ho3, ho2, ho1, if_pos hg]
  · obtain ⟨w3, he3, ho3, _⟩ := nodes_accepting conf s w1 hw1
    refine ⟨w3, ?_, ?_⟩
    · simp only [hg, if_false, he3]
      rfl
    · rw [ho3, ho1, if_neg hg]
      simp

/-- C12: a node without outgoing edges is rendered in full by `service.ToYaml`: into
a sink that accepts every write the workload+Service pair is written without
error, and the workload, in front of the Service document, holds the environment
entry `UPSTREAM_URIS` with the empty string as its value. -/
theorem C12_empty_edges_render_empty_uris (s : service) (ns mesh image : String) (w : Writer)
    (he : s.edges = []) (hw : ∀ k, w.reject k = none) :
    s.toUris ns = "" ∧
      (∃ w2, s.ToYaml w ns mesh image = (w2, none) ∧
        w2.out = w.out ++ serviceDoc s ns mesh image) ∧
      (∃ pre mid post, serviceDoc s ns mesh image =
        "\napiVersion: apps/v1\nkind: StatefulSet\n" ++ pre ++
          "            - name: UPSTREAM_URIS\n              value: \"\"\n" ++ mid ++
          "---\napiVersion: v1\nkind: Service\n" ++ post) := by
  have hu : s.toUris ns = "" := by
    rw [toUris_eq, he]
    rfl
  refine ⟨hu, ?_, ?_⟩
  · obtain ⟨w2, h1, h2, _⟩ := service_ToYaml_accepting s w ns mesh image hw
    exact ⟨w2, h1, h2⟩
  · have h1 : "\napiVersion: apps/v1\nkind: StatefulSet\nmetadata:\n  name: " =
        "\napiVersion: apps/v1\nkind: StatefulSet\n" ++ "metadata:\n  name: " := by decide
    have h2 : "\"\n            - name: UPSTREAM_URIS\n              value: \"" =
        "\"\n" ++ "            - name: UPSTREAM_URIS\n              value: \"" := by decide
    have h3 : "\"\n          resources:\n            limits:\n              memory: \"64Mi\"\n              cpu: \"100m\"\n---\napiVersion: v1\nkind: Service\nmetadata:\n  name: " =
        "\"\n" ++ "          resources:\n            limits:\n              memory: \"64Mi\"\n              cpu: \"100m\"\n" ++ "---\napiVersion: v1\nkind: Service\n" ++ "metadata:\n  name: " := by
      decide
    have h4 : "            - name: UPSTREAM_URIS\n              value: \"\"\n" =
        "            - name: UPSTREAM_URIS\n              value: \"" ++ "\"\n" := by decide
    unfold serviceDoc
    rw [hu, h1, h2, h3, h4]
    refine ⟨"metadata:\n  name: " ++ toName s.idx ++ namespaceLine ns ++ "\n  labels:\n    app: " ++
        toName s.idx ++ "\nspec:\n  replicas: 1\n  selector:\n    matchLabels:\n      app: " ++
        toName s.idx ++ "\n  serviceName: " ++ toName s.idx ++
        "\n  template:\n    metadata:\n      labels:\n        app: " ++ toName s.idx ++
        "\n      annotations:\n        kuma.io/mesh: " ++ mesh ++
        "\n    spec:\n      containers:\n        - name: service\n          image: " ++ image ++
        "\n          ports:\n            - containerPort: 9090\n          env:\n            - name: SERVICE\n              value: \"" ++
        toName s.idx ++ "\"\n",
      "          resources:\n            limits:\n              memory: \"64Mi\"\n              cpu: \"100m\"\n",
      "metadata:\n  name: " ++ toName s.idx ++ namespaceLine ns ++
        "\n  annotations:\n    80.service.kuma.io/protocol: http\nspec:\n  selector:\n    app: " ++
        toName s.idx ++ "\n  ports:\n    - protocol: TCP\n      port: 80\n      targetPort: 9090\n", ?_⟩
    simp only [String.append_assoc, String.empty_append]

/-- Witness of C12: node 2 without edges, the default namespace, mesh and image, and
an empty sink that accepts every write. -/
theorem C12_empty_edges_render_empty_uris_witness :
    ({ idx := 2, edges := [] } : service).edges = [] ∧ (∀ k, acceptingSink.reject k = none) ∧
      (({ idx := 2, edges := [] } : service).toUris "kuma-test" = "" ∧
        (∃ w2, service.ToYaml { idx := 2, edges := [] } acceptingSink "kuma-test" "default"
            "nicholasjackson/fake-service:v0.21.1" = (w2, none) ∧
          w2.out = acceptingSink.out ++ serviceDoc { idx := 2, edges := [] } "kuma-test" "default"
            "nicholasjackson/fake-service:v0.21.1") ∧
        (∃ pre mid post, serviceDoc { idx := 2, edges := [] } "kuma-test" "default"
            "nicholasjackson/fake-service:v0.21.1" =
          "\napiVersion: apps/v1\nkind: StatefulSet\n" ++ pre ++
            "            - name: UPSTREAM_URIS\n              value: \"\"\n" ++ mid ++
            "---\napiVersion: v1\nkind: Service\n" ++ post)) :=
  ⟨rfl, fun _ => rfl,
    C12_empty_edges_render_empty_uris { idx := 2, edges := [] } "kuma-test" "default"
      "nicholasjackson/fake-service:v0.21.1" acceptingSink rfl (fun _ => rfl)⟩

/-! ## Decimal numerals (`%d`, `%03d`) -/

theorem toDigitsCore_eq_digits (fuel n : Nat) (acc : List Char) (h : n < fuel) (hn : 0 < n) :
    Nat.toDigitsCore 10 fuel n acc = (Nat.digits 10 n).reverse.map Nat.digitChar ++ acc := by
  induction fuel generalizing n acc with
  | zero => omega
  | succ fuel ih =>
    rw [Nat.toDigitsCore, Nat.digits_def' (by decide) hn]
    by_cases h0 : n / 10 = 0
    · simp [h0]
    · simp only [h0, if_false]
      rw [ih (n / 10) _ (by omega) (by omega)]
      simp

theorem repr_data_of_pos (n : Nat) (hn : 0 < n) :
    (Nat.repr n).data = (Nat.digits 10 n).reverse.map Nat.digitChar := by
  simp only [Nat.repr, Nat.toDigits, List.asString]
  rw [toDigitsCore_eq_digits (n + 1) n [] (by omega) hn]
  simp

theorem repr_data (n : Nat) :
    (Nat.repr n).data = if n = 0 then ['0'] else (Nat.digits 10 n).reverse.map Nat.digitChar := by
  by_cases h : n = 0
  · subst h
    rfl
  · rw [if_neg h, repr_data_of_pos n (by omega)]

theorem digitVal_digitChar (d : Nat) (h : d < 10) : digitVal (Nat.digitChar d) = d := by
  revert d
  decide

theorem digitChar_ne_newline (d : Nat) (h : d < 10) : Nat.digitChar d ≠ '\n' := by
  revert d
  decide

theorem map_digitVal_digitChar (l : List Nat) (h : ∀ d ∈ l, d < 10) :
    (l.map Nat.digitChar).map digitVal = l := by
  induction l with
  | nil => rfl
  | cons a l ih =>
    simp only [List.map_cons, digitVal_digitChar a (h a (List.mem_cons_self _ _))]
    rw [ih (fun d hd => h d (List.mem_cons_of_mem _ hd))]

theorem decimalValue_repr (n : Nat) : decimalValue (Nat.repr n) = n := by
  unfold decimalValue
  rw [repr_data]
  by_cases h : n = 0
  · subst h
    rfl
  · rw [if_neg h, map_digitVal_digitChar]
    · rw [List.reverse_reverse, Nat.ofDigits_digits]
    · intro d hd
      exact Nat.digits_lt_base (by decide) (List.mem_reverse.mp hd)

theorem ofDigits_append_zeros (l : List Nat) (k : Nat) :
    Nat.ofDigits 10 (l ++ List.replicate k 0) = Nat.ofDigits 10 l := by
  induction k with
  | zero => simp
  | succ k ih =>
    rw [List.replicate_succ', ← List.append_assoc, Nat.ofDigits_append, ih]
    simp [Nat.ofDigits]

theorem decimalValue_zeroPad (w : Nat) (digits : String) :
    decimalValue (zeroPad w digits) = decimalValue digits := by
  unfold decimalValue zeroPad
  simp only [String.data_append, List.map_append, List.reverse_append, List.map_replicate,
    List.reverse_replicate]
  have h0 : digitVal '0' = 0 := by decide
  rw [h0, ofDigits_append_zeros]

theorem fmtD03_of_nonneg (n : Int) (h : 0 ≤ n) : fmtD03 n = zeroPad 3 (Nat.repr n.toNat) := by
  unfold fmtD03
  rw [if_neg (by omega)]

theorem fmtD03_injective (a b : Int) (ha : 0 ≤ a) (hb : 0 ≤ b) (h : fmtD03 a = fmtD03 b) :
    a = b := by
  rw [fmtD03_of_nonneg a ha, fmtD03_of_nonneg b hb] at h
  have h2 := congrArg decimalValue h
  rw [decimalValue_zeroPad, decimalValue_zeroPad, decimalValue_repr, decimalValue_repr] at h2
  omega

theorem string_append_left_cancel (p a b : String) (h : p ++ a = p ++ b) : a = b := by
  have h2 := congrArg String.data h
  simp only [String.data_append] at h2
  exact String.ext (List.append_cancel_left h2)

theorem string_append_right_cancel (a b q : String) (h : a ++ q = b ++ q) : a = b := by
  have h2 := congrArg String.data h
  simp only [String.data_append] at h2
  exact String.ext (List.append_cancel_right h2)

theorem toDigits_of_pos (n : Nat) (hn : 0 < n) :
    Nat.toDigits 10 n = (Nat.digits 10 n).reverse.map Nat.digitChar := by
  rw [Nat.toDigits, toDigitsCore_eq_digits (n + 1) n [] (by omega) hn]
  simp

theorem toDigits_small (n : Nat) (h : n < 10) : Nat.toDigits 10 n = [Nat.digitChar n] := by
  have h0 : n / 10 = 0 := by omega
  have h1 : n % 10 = n := by omega
  simp [Nat.toDigits, Nat.toDigitsCore, h0, h1]

theorem toDigits_step (n : Nat) (h : 10 ≤ n) :
    Nat.toDigits 10 n = Nat.toDigits 10 (n / 10) ++ [Nat.digitChar (n % 10)] := by
  rw [toDigits_of_pos n (by omega), toDigits_of_pos (n / 10) (by omega),
    Nat.digits_def' (by decide) (by omega : 0 < n)]
  simp

theorem zeroPad_mk (w : Nat) (x : List Char) :
    zeroPad w (String.mk x) = String.mk (List.replicate (w - x.length) '0' ++ x) :=
  rfl

theorem zeroPad_repr_lt_thousand (n : Nat) (h : n < 1000) :
    zeroPad 3 (Nat.repr n) =
      String.mk [Nat.digitChar (n / 100), Nat.digitChar (n / 10 % 10), Nat.digitChar (n % 10)] := by
  unfold Nat.repr List.asString
  rw [zeroPad_mk]
  congr 1
  by_cases h1 : n < 10
  · rw [toDigits_small n h1]
    have a : n / 100 = 0 := by omega
    have b : n / 10 % 10 = 0 := by omega
    have c : n % 10 = n := by omega
    rw [a, b, c]
    rfl
  · by_cases h2 : n < 100
    · rw [toDigits_step n (by omega), toDigits_small (n / 10) (by omega)]
      have a : n / 100 = 0 := by omega
      have b : n / 10 % 10 = n / 10 := by omega
      rw [a, b]
      rfl
    · rw [toDigits_step n (by omega), toDigits_step (n / 10) (by omega),
        toDigits_small (n / 10 / 10) (by omega)]
      have a : n / 10 / 10 = n / 100 := by omega
      rw [a]
      rfl

theorem repr_length_ge_four (n : Nat) (h : 1000 ≤ n) : 4 ≤ (Nat.repr n).length := by
  have hl : (Nat.repr n).length = (Nat.digits 10 n).length := by
    rw [String.length, repr_data_of_pos n (by omega)]
    simp
  rw [hl]
  by_contra hc
  have h1 : n < 10 ^ (Nat.digits 10 n).length := Nat.lt_base_pow_length_digits (by decide)
  have h2 : 10 ^ (Nat.digits 10 n).length ≤ 10 ^ 3 :=
    Nat.pow_le_pow_right (by decide) (by omega)
  omega

theorem zeroPad_of_le (w : Nat) (x : String) (h : w ≤ x.length) : zeroPad w x = x := by
  unfold zeroPad
  rw [Nat.sub_eq_zero_of_le h]
  apply String.ext
  simp

/-- C16, as the code has it: for `0 ≤ idx < 1000`, `toName(idx)` is `srv-` followed by
exactly three decimal digits, the hundreds, tens and units of `idx`, so the name has
length 7; for `idx ≥ 1000` it is `srv-` followed by the unpadded decimal form of
`idx`, and the name has length 8 or more. -/
theorem C16_toName_three_digits_below_thousand (idx : Int) (h : 0 ≤ idx) :
    (idx < 1000 →
      toName idx = "srv-" ++ String.mk [Nat.digitChar (idx.toNat / 100),
        Nat.digitChar (idx.toNat / 10 % 10), Nat.digitChar (idx.toNat % 10)] ∧
      (toName idx).length = 7) ∧
      (1000 ≤ idx → toName idx = "srv-" ++ Nat.repr idx.toNat ∧ 8 ≤ (toName idx).length) := by
  constructor
  · intro hlt
    have e : toName idx = "srv-" ++ String.mk [Nat.digitChar (idx.toNat / 100),
        Nat.digitChar (idx.toNat / 10 % 10), Nat.digitChar (idx.toNat % 10)] := by
      rw [toName, fmtD03_of_nonneg idx h, zeroPad_repr_lt_thousand _ (by omega)]
    refine ⟨e, ?_⟩
    rw [e]
    rfl
  · intro hge
    have hl := repr_length_ge_four idx.toNat (by omega)
    have e : toName idx = "srv-" ++ Nat.repr idx.toNat := by
      rw [toName, fmtD03_of_nonneg idx h, zeroPad_of_le _ _ (by omega)]
    refine ⟨e, ?_⟩
    rw [e, String.length_append]
    have : "srv-".length = 4 := rfl
    omega

/-- Witness of C16: the index 7. -/
theorem C16_toName_three_digits_below_thousand_witness :
    (0 : Int) ≤ 7 ∧
      (((7 : Int) < 1000 →
        toName 7 = "srv-" ++ String.mk [Nat.digitChar ((7 : Int).toNat / 100),
          Nat.digitChar ((7 : Int).toNat / 10 % 10), Nat.digitChar ((7 : Int).toNat % 10)] ∧
        (toName 7).length = 7) ∧
        ((1000 : Int) ≤ 7 → toName 7 = "srv-" ++ Nat.repr (7 : Int).toNat ∧
          8 ≤ (toName 7).length)) :=
  ⟨by decide, C16_toName_three_digits_below_thousand 7 (by decide)⟩

/-- Counterexample to C16 as stated: the index 1000 is not negative, and its name
`srv-1000` has four digits and length 8. -/
theorem C16_counterexample_index_thousand :
    (0 : Int) ≤ 1000 ∧ toName 1000 = "srv-1000" ∧ (toName 1000).length = 8 ∧
      ¬ ∃ d1 d2 d3 : Char, toName 1000 = "srv-" ++ String.mk [d1, d2, d3] := by
  refine ⟨by decide, by decide, by decide, ?_⟩
  rintro ⟨d1, d2, d3, h⟩
  have h2 := congrArg String.length h
  have h3 : (toName 1000).length = 8 := by decide
  rw [h3, String.length_append] at h2
  simp [String.length] at h2

/-- C19: node naming is injective on the non-negative indices: different indices have
different names and, for every fixed namespace, different URIs; so the nodes of a
generated graph, of any size, have pairwise different names and URIs. -/
theorem C19_naming_injective :
    (∀ a b : Int, 0 ≤ a → 0 ≤ b → a ≠ b → toName a ≠ toName b) ∧
      (∀ (a b : Int) (ns : String), 0 ≤ a → 0 ≤ b → a ≠ b → toUri a ns ≠ toUri b ns) ∧
      (∀ (source : Int → Nat → Nat) (seed numServices percentEdges : Int) (ns : String),
        ∃ g, GenerateRandomServiceMesh source seed numServices percentEdges = some g ∧
          (g.map (fun s => toName s.idx)).Nodup ∧ (g.map (fun s => toUri s.idx ns)).Nodup) := by
  have hn : ∀ a b : Int, 0 ≤ a → 0 ≤ b → toName a = toName b → a = b := by
    intro a b ha hb h
    exact fmtD03_injective a b ha hb (string_append_left_cancel _ _ _ h)
  have hu : ∀ (a b : Int) (ns : String), 0 ≤ a → 0 ≤ b → toUri a ns = toUri b ns → a = b := by
    intro a b ns ha hb h
    unfold toUri at h
    simp only [String.append_assoc] at h
    exact hn a b ha hb (string_append_right_cancel _ _ _ (string_append_left_cancel _ _ _ h))
  refine ⟨fun a b ha hb hab h => hab (hn a b ha hb h),
    fun a b ns ha hb hab h => hab (hu a b ns ha hb h), ?_⟩
  intro source seed n p ns
  refine ⟨_, generate_eq source seed n p, ?_, ?_⟩
  · unfold specGraph
    rw [List.map_map, List.nodup_map_iff_inj_on (List.nodup_range _)]
    intro x _ y _ hxy
    have h2 : (x : Int) = (y : Int) := hn _ _ (by simp) (by simp) hxy
    exact_mod_cast h2
  · unfold specGraph
    rw [List.map_map, List.nodup_map_iff_inj_on (List.nodup_range _)]
    intro x _ y _ hxy
    have h2 : (x : Int) = (y : Int) := hu _ _ ns (by simp) (by simp) hxy
    exact_mod_cast h2

/-! ## The graph description (`ToDot`) -/

theorem foldl_append_flatMap {α β : Type} (f : α → List β) (l : List α) (init : List β) :
    l.foldl (fun acc x => acc ++ f x) init = init ++ l.flatMap f := by
  induction l generalizing init with
  | nil => simp
  | cons a l ih => simp [ih]

theorem digitChar_eq_decimalDigit (d : Nat) (h : d < 10) : Nat.digitChar d = decimalDigit d := by
  revert d
  decide

theorem repr_eq_decimalNat (n : Nat) : Nat.repr n = decimalNat n := by
  apply String.ext
  rw [repr_data]
  unfold decimalNat
  by_cases h : n = 0
  · rw [if_pos h, if_pos h]
  · rw [if_neg h, if_neg h]
    apply List.map_congr_left
    intro d hd
    exact digitChar_eq_decimalDigit d (Nat.digits_lt_base (by decide) (List.mem_reverse.mp hd))

theorem fmtD_eq_decimalInt (n : Int) : fmtD n = decimalInt n := by
  unfold fmtD decimalInt
  rw [repr_eq_decimalNat, repr_eq_decimalNat]

theorem ToDot_eq (s : services) :
    services.ToDot s = "digraph\x7b\n" ++ String.intercalate "\n" (edgeLines s) ++ "\n\x7d\n" := by
  unfold services.ToDot edgeLines
  simp only
  have h : ∀ (srv : service) (acc : List String),
      srv.edges.foldl (fun acc other => acc ++ [fmtD srv.idx ++ " -> " ++ fmtD other ++ ";"]) acc =
        acc ++ srv.edges.map (fun other => edgeLine srv.idx other) := by
    intro srv acc
    rw [foldl_snoc_map (fun other => fmtD srv.idx ++ " -> " ++ fmtD other ++ ";")]
    simp only [edgeLine, fmtD_eq_decimalInt]
  simp only [h]
  rw [foldl_append_flatMap (fun srv : service => srv.edges.map (fun other => edgeLine srv.idx other))]
  rfl

theorem edgeLines_length (s : services) : (edgeLines s).length = edgeCount s := by
  unfold edgeLines edgeCount
  induction s with
  | nil => rfl
  | cons a s ih => simp [List.flatMap_cons, ih]

theorem list_intercalate_cons_cons {α : Type} (sep a b : List α) (rest : List (List α)) :
    sep.intercalate (a :: b :: rest) = a ++ sep ++ sep.intercalate (b :: rest) := by
  simp [List.intercalate, List.intersperse]

theorem list_intercalate_append {α : Type} (sep : List α) (l1 l2 : List (List α))
    (h1 : l1 ≠ []) (h2 : l2 ≠ []) :
    sep.intercalate (l1 ++ l2) = sep.intercalate l1 ++ sep ++ sep.intercalate l2 := by
  induction l1 with
  | nil => exact absurd rfl h1
  | cons a l1 ih =>
    cases l1 with
    | nil =>
      cases l2 with
      | nil => exact absurd rfl h2
      | cons b l2 =>
        rw [List.singleton_append, list_intercalate_cons_cons]
        simp [List.intercalate]
    | cons b l1 =>
      rw [List.cons_append, List.cons_append, list_intercalate_cons_cons, ← List.cons_append,
        ih (by simp), list_intercalate_cons_cons]
      simp [List.append_assoc]

theorem string_intercalate_data (sep : String) (l : List String) :
    (String.intercalate sep l).data = sep.data.intercalate (l.map String.data) := by
  induction l with
  | nil => rfl
  | cons a l ih =>
    cases l with
    | nil => simp [String.intercalate, String.intercalate.go, List.intercalate]
    | cons b rest =>
      rw [intercalate_cons_cons, List.map_cons, List.map_cons, list_intercalate_cons_cons,
        ← List.map_cons]
      simp only [String.data_append, ih]

theorem newline_not_mem_repr (n : Nat) : '\n' ∉ (Nat.repr n).data := by
  rw [repr_data]
  split
  · decide
  · intro h
    obtain ⟨d, hd, he⟩ := List.mem_map.mp h
    exact digitChar_ne_newline d (Nat.digits_lt_base (by decide) (List.mem_reverse.mp hd)) he

theorem newline_not_mem_fmtD (n : Int) : '\n' ∉ (fmtD n).data := by
  unfold fmtD
  split
  · simp only [String.data_append, List.mem_append, not_or]
    exact ⟨by decide, newline_not_mem_repr _⟩
  · exact newline_not_mem_repr _

theorem newline_not_mem_edgeLine (i j : Int) : '\n' ∉ (edgeLine i j).data := by
  unfold edgeLine
  rw [← fmtD_eq_decimalInt, ← fmtD_eq_decimalInt]
  simp only [String.data_append, List.mem_append, not_or]
  exact ⟨⟨⟨newline_not_mem_fmtD i, by decide⟩, newline_not_mem_fmtD j⟩, by decide⟩

theorem edgeShaped_of_mem (s : services) (l : String) (h : l ∈ edgeLines s) : edgeShaped l := by
  unfold edgeLines at h
  obtain ⟨srv, _, hl⟩ := List.mem_flatMap.mp h
  obtain ⟨other, _, rfl⟩ := List.mem_map.mp hl
  exact ⟨srv.idx, other, rfl⟩

theorem edgeLine_getLast (i j : Int) : (edgeLine i j).data.getLast? = some ';' := by
  unfold edgeLine
  rw [String.data_append]
  exact List.getLast?_concat _

theorem not_edgeShaped_header : ¬ edgeShaped "digraph\x7b" := by
  rintro ⟨i, j, h⟩
  have h2 := edgeLine_getLast i j
  rw [← h] at h2
  revert h2
  decide

theorem not_edgeShaped_footer : ¬ edgeShaped "\x7d" := by
  rintro ⟨i, j, h⟩
  have h2 := edgeLine_getLast i j
  rw [← h] at h2
  revert h2
  decide

theorem not_edgeShaped_empty : ¬ edgeShaped "" := by
  rintro ⟨i, j, h⟩
  have h2 := edgeLine_getLast i j
  rw [← h] at h2
  revert h2
  decide

theorem ToDot_data (s : services) :
    (services.ToDot s).data =
      ['\n'].intercalate
        ((["digraph\x7b"] ++ (if edgeLines s = [] then [""] else edgeLines s) ++ ["\x7d", ""]).map
          String.data) := by
  have hm : (String.intercalate "\n" (edgeLines s)).data =
      ['\n'].intercalate ((if edgeLines s = [] then [""] else edgeLines s).map String.data) := by
    by_cases h : edgeLines s = []
    · rw [h, if_pos rfl]
      rfl
    · rw [if_neg h]
      exact string_intercalate_data "\n" _
  have hne : (if edgeLines s = [] then [""] else edgeLines s).map String.data ≠ [] := by
    by_cases h : edgeLines s = []
    · rw [if_pos h]
      simp
    · rw [if_neg h]
      simpa using h
  rw [ToDot_eq, String.data_append, String.data_append, hm, List.map_append, List.map_append,
    list_intercalate_append _ _ _ (by simp) (by simp),
    list_intercalate_append _ _ _ (by simp) hne]
  simp [List.intercalate, List.intersperse]

theorem textLines_ToDot (s : services) :
    textLines (services.ToDot s) =
      ["digraph\x7b"] ++ (if edgeLines s = [] then [""] else edgeLines s) ++ ["\x7d", ""] := by
  unfold textLines
  rw [ToDot_data, List.splitOn_intercalate _ '\n' _ (by simp)]
  · rw [List.map_map]
    have : (String.mk ∘ String.data) = id := by
      funext x
      rfl
    rw [this, List.map_id]
  · intro l hl
    obtain ⟨x, hx, rfl⟩ := List.mem_map.mp hl
    rcases List.mem_append.mp hx with hx | hx
    · rcases List.mem_append.mp hx with hx | hx
      · rw [List.mem_singleton.mp hx]
        decide
      · by_cases h : edgeLines s = []
        · rw [if_pos h] at hx
          rw [List.mem_singleton.mp hx]
          decide
        · rw [if_neg h] at hx
          obtain ⟨i, j, rfl⟩ := edgeShaped_of_mem s x hx
          exact newline_not_mem_edgeLine i j
    · rcases List.mem_cons.mp hx with rfl | hx
      · decide
      · rw [List.mem_singleton.mp hx]
        decide

theorem join_append (l1 l2 : List String) :
    String.join (l1 ++ l2) = String.join l1 ++ String.join l2 := by
  induction l1 with
  | nil => simp [String.join]
  | cons a l1 ih => rw [List.cons_append, join_cons, join_cons, ih, String.append_assoc]

theorem unlines_cons (a : String) (l : List String) :
    unlines (a :: l) = a ++ "\n" ++ unlines l := by
  unfold unlines
  rw [List.map_cons, join_cons]

theorem unlines_append (l1 l2 : List String) : unlines (l1 ++ l2) = unlines l1 ++ unlines l2 := by
  unfold unlines
  rw [List.map_append, join_append]

theorem intercalate_newline_unlines (l : List String) (h : l ≠ []) :
    String.intercalate "\n" l ++ "\n" = unlines l := by
  induction l with
  | nil => exact absurd rfl h
  | cons a l ih =>
    cases l with
    | nil => simp [String.intercalate, String.intercalate.go, unlines, String.join]
    | cons b rest =>
      rw [intercalate_cons_cons, unlines_cons, String.append_assoc, ih (by simp)]

theorem ToDot_unlines (s : services) (h : edgeLines s ≠ []) :
    services.ToDot s = unlines (["digraph\x7b"] ++ edgeLines s ++ ["\x7d"]) := by
  rw [ToDot_eq, unlines_append, unlines_append, ← intercalate_newline_unlines _ h]
  have h1 : unlines ["digraph\x7b"] = "digraph\x7b\n" := by decide
  have h2 : unlines ["\x7d"] = "\x7d\n" := by decide
  have h3 : "\n\x7d\n" = "\n" ++ "\x7d\n" := by decide
  rw [h1, h2, h3]
  simp only [String.append_assoc]

theorem ToDot_no_edges (s : services) (h : edgeLines s = []) :
    services.ToDot s = unlines ["digraph\x7b", "", "\x7d"] := by
  rw [ToDot_eq, h]
  decide

/-- Counterexample to C13 as stated: the graph of one node without edges is not
rendered as the header line followed by the footer line; one empty line stands
between them. -/
theorem C13_counterexample_graph_without_edges :
    edgeLines [{ idx := 0, edges := [] }] = [] ∧
      services.ToDot [{ idx := 0, edges := [] }] = "digraph\x7b\n\n\x7d\n" ∧
      unlines (["digraph\x7b"] ++ edgeLines [{ idx := 0, edges := [] }] ++ ["\x7d"]) =
        "digraph\x7b\n\x7d\n" ∧
      services.ToDot [{ idx := 0, edges := [] }] ≠
        unlines (["digraph\x7b"] ++ edgeLines [{ idx := 0, edges := [] }] ++ ["\x7d"]) := by
  decide

/-- C13, as the code has it: for a graph with at least one edge `services.ToDot`
returns the header line `digraph{`, then one line `<i> -> <j>;` per edge, `i` the
index of the source node and `j` the target, both as decimal numerals, node after
node and within a node in the order of its edge list, then the footer line `}`;
for a graph without edges it returns the header line, one empty line and the
footer line.  In both cases the edge-shaped lines of the result are the lines of
the edges and no others, and their number is the number of edges. -/
theorem C13_ToDot_lines (s : services) :
    services.ToDot s =
        "digraph\x7b\n" ++ String.intercalate "\n" (edgeLines s) ++ "\n\x7d\n" ∧
      (edgeLines s ≠ [] →
        services.ToDot s = unlines (["digraph\x7b"] ++ edgeLines s ++ ["\x7d"])) ∧
      (edgeLines s = [] → services.ToDot s = unlines ["digraph\x7b", "", "\x7d"]) ∧
      edgeLines s =
        s.flatMap (fun srv => srv.edges.map (fun other =>
          decimalInt srv.idx ++ " -> " ++ decimalInt other ++ ";")) ∧
      (edgeLines s).length = edgeCount s ∧
      textLines (services.ToDot s) =
        ["digraph\x7b"] ++ (if edgeLines s = [] then [""] else edgeLines s) ++ ["\x7d", ""] ∧
      (∀ l ∈ edgeLines s, edgeShaped l) ∧
      ¬ edgeShaped "digraph\x7b" ∧ ¬ edgeShaped "\x7d" ∧ ¬ edgeShaped "" ∧
      (∀ [DecidablePred edgeShaped],
        (textLines (services.ToDot s)).countP (fun l => decide (edgeShaped l)) = edgeCount s) ∧
      (∀ n : Nat, decimalValue (decimalNat n) = n) ∧
      edgeLine 0 12 = "0 -> 12;" ∧ edgeLine 1000 (-3) = "1000 -> -3;" := by
  refine ⟨ToDot_eq s, ToDot_unlines s, ToDot_no_edges s, rfl, edgeLines_length s,
    textLines_ToDot s, fun l hl => edgeShaped_of_mem s l hl, not_edgeShaped_header,
    not_edgeShaped_footer, not_edgeShaped_empty, ?_, ?_, ?_, ?_⟩
  · intro inst
    rw [textLines_ToDot, List.countP_append, List.countP_append, ← edgeLines_length]
    have hmid : List.countP (fun l => decide (edgeShaped l))
        (if edgeLines s = [] then [""] else edgeLines s) = (edgeLines s).length := by
      by_cases h : edgeLines s = []
      · rw [if_pos h, h]
        simp [not_edgeShaped_empty]
      · rw [if_neg h, List.countP_eq_length]
        intro l hl
        simpa using edgeShaped_of_mem s l hl
    rw [hmid]
    simp [not_edgeShaped_header, not_edgeShaped_footer, not_edgeShaped_empty]
  · intro n
    rw [← repr_eq_decimalNat]
    exact decimalValue_repr n
  · unfold edgeLine
    rw [← fmtD_eq_decimalInt, ← fmtD_eq_decimalInt]
    decide
  · unfold edgeLine
    rw [← fmtD_eq_decimalInt, ← fmtD_eq_decimalInt]
    decide

/-! ## Rendering into a sink that may reject a write -/

theorem stops_nil (w : Writer) : stopsAtFirstFailure w w none "" := by
  refine ⟨rfl, le_refl _, ?_, ⟨"", by simp, List.prefix_refl _⟩, ?_, ?_⟩
  · intro i h1 h2
    omega
  · intro _
    refine ⟨by simp, ?_⟩
    intro i h1 h2
    omega
  · intro e h
    cases h

theorem stops_write (w : Writer) (p : String) :
    stopsAtFirstFailure w (w.Write p).1 (w.Write p).2 p := by
  unfold Writer.Write
  cases h : w.reject w.calls with
  | none =>
    refine ⟨rfl, by simp, ?_, ⟨p, rfl, List.prefix_refl _⟩, ?_, ?_⟩
    · intro i h1 h2
      simp only at h2
      omega
    · intro _
      refine ⟨rfl, ?_⟩
      intro i h1 h2
      simp only at h2
      have : i = w.calls := by omega
      rw [this]
      exact h
    · intro e he
      cases he
  | some m =>
    refine ⟨rfl, by simp, ?_, ⟨String.mk (p.data.take m), rfl, List.take_prefix _ _⟩, ?_, ?_⟩
    · intro i h1 h2
      simp only at h2
      omega
    · intro he
      cases he
    · intro e he
      simp only [Option.some.injEq] at he
      refine ⟨by simp, by simp [← he], ?_⟩
      simp [h]

theorem stops_seq_ok (w w1 w2 : Writer) (r : Option Err) (t1 t2 : String)
    (h1 : stopsAtFirstFailure w w1 none t1) (h2 : stopsAtFirstFailure w1 w2 r t2) :
    stopsAtFirstFailure w w2 r (t1 ++ t2) := by
  obtain ⟨a1, b1, c1, _, e1, _⟩ := h1
  obtain ⟨a2, b2, c2, ⟨pre, hp, hpre⟩, e2, f2⟩ := h2
  obtain ⟨ho1, hall1⟩ := e1 rfl
  refine ⟨by rw [a2, a1], by omega, ?_, ⟨t1 ++ pre, ?_, ?_⟩, ?_, ?_⟩
  · intro i hi1 hi2
    by_cases hlt : i < w1.calls
    · exact hall1 i hi1 hlt
    · rw [← a1]
      exact c2 i (by omega) hi2
  · rw [hp, ho1, String.append_assoc]
  · rw [String.data_append, String.data_append]
    exact (List.prefix_append_right_inj _).mpr hpre
  · intro hr
    obtain ⟨ho2, hall2⟩ := e2 hr
    refine ⟨by rw [ho2, ho1, String.append_assoc], ?_⟩
    intro i hi1 hi2
    by_cases hlt : i < w1.calls
    · exact hall1 i hi1 hlt
    · rw [← a1]
      exact hall2 i (by omega) hi2
  · intro e he
    obtain ⟨x, y, z⟩ := f2 e he
    exact ⟨by omega, y, by rw [← a1]; exact z⟩

theorem stops_seq_err (w w1 : Writer) (e : Err) (t1 t2 : String)
    (h1 : stopsAtFirstFailure w w1 (some e) t1) :
    stopsAtFirstFailure w w1 (some e) (t1 ++ t2) := by
  obtain ⟨a1, b1, c1, ⟨pre, hp, hpre⟩, _, f1⟩ := h1
  refine ⟨a1, b1, c1, ⟨pre, hp, ?_⟩, ?_, f1⟩
  · rw [String.data_append]
    exact hpre.trans (List.prefix_append _ _)
  · intro h
    cases h

theorem stops_execField (data : Data) (key : String) (w : Writer) (text : String)
    (hr : renderField data key = .ok text) :
    stopsAtFirstFailure w (execField data key w).1 (execField data key w).2 text := by
  unfold renderField at hr
  unfold execField
  cases hl : data.lookup key with
  | none => simp [hl] at hr
  | some v =>
    simp only [hl, Except.ok.injEq] at hr
    subst hr
    exact stops_write w v

theorem stops_execLeaves (data : Data) (body : List Leaf) (w : Writer) (text : String)
    (hr : renderLeaves data body = .ok text) :
    stopsAtFirstFailure w (execLeaves data body w).1 (execLeaves data body w).2 text := by
  induction body generalizing w text with
  | nil =>
    simp only [renderLeaves, Except.ok.injEq] at hr
    subst hr
    exact stops_nil w
  | cons l rest ih =>
    simp only [renderLeaves, bind, Except.bind, pure, Except.pure] at hr
    cases ha : l.render data with
    | error e => simp [ha] at hr
    | ok a =>
      cases hb : renderLeaves data rest with
      | error e => simp [ha, hb] at hr
      | ok b =>
        simp only [ha, hb, Except.ok.injEq] at hr
        subst hr
        have h1 : stopsAtFirstFailure w (l.exec data w).1 (l.exec data w).2 a := by
          cases l with
          | text s =>
            simp only [Leaf.render, Except.ok.injEq] at ha
            subst ha
            exact stops_write w s
          | field key => exact stops_execField data key w a ha
        rcases hx : l.exec data w with ⟨w1, r1⟩
        rw [hx] at h1
        cases r1 with
        | some e =>
          simp only [execLeaves, hx]
          exact stops_seq_err w w1 e a b h1
        | none =>
          simp only [execLeaves, hx]
          exact stops_seq_ok w w1 _ _ a b h1 (ih w1 b hb)

theorem stops_Node_exec (data : Data) (n : Node) (w : Writer) (text : String)
    (hr : n.render data = .ok text) :
    stopsAtFirstFailure w (n.exec data w).1 (n.exec data w).2 text := by
  cases n with
  | text s =>
    simp only [Node.render, Except.ok.injEq] at hr
    subst hr
    exact stops_write w s
  | field key => exact stops_execField data key w text hr
  | ifField key body =>
    simp only [Node.render, renderField, bind, Except.bind, pure, Except.pure] at hr
    simp only [Node.exec]
    cases hl : data.lookup key with
    | none => simp [hl] at hr
    | some v =>
      simp only [hl] at hr ⊢
      by_cases hv : v = ""
      · simp only [hv, if_true, Except.ok.injEq] at hr ⊢
        subst hr
        exact stops_nil w
      · simp only [hv, if_false] at hr ⊢
        exact stops_execLeaves data body w text hr

theorem stops_Execute (data : Data) (t : List Node) (w : Writer) (text : String)
    (hr : renderNodes data t = .ok text) :
    stopsAtFirstFailure w (Template.Execute t w data).1 (Template.Execute t w data).2 text := by
  induction t generalizing w text with
  | nil =>
    simp only [renderNodes, Except.ok.injEq] at hr
    subst hr
    exact stops_nil w
  | cons n rest ih =>
    simp only [renderNodes, bind, Except.bind, pure, Except.pure] at hr
    cases ha : n.render data with
    | error e => simp [ha] at hr
    | ok a =>
      cases hb : renderNodes data rest with
      | error e => simp [ha, hb] at hr
      | ok b =>
        simp only [ha, hb, Except.ok.injEq] at hr
        subst hr
        have h1 := stops_Node_exec data n w a ha
        rcases hx : n.exec data w with ⟨w1, r1⟩
        rw [hx] at h1
        cases r1 with
        | some e =>
          simp only [Template.Execute, hx]
          exact stops_seq_err w w1 e a b h1
        | none =>
          simp only [Template.Execute, hx]
          exact stops_seq_ok w w1 _ _ a b h1 (ih w1 b hb)

theorem stops_nodes (conf : serviceConf) (s : services) (w : Writer) :
    stopsAtFirstFailure w (services.ToYaml.nodes conf s w).1 (services.ToYaml.nodes conf s w).2
      (String.join
        (s.map (fun srv => "---" ++ serviceDoc srv conf.namespace_ conf.mesh conf.image))) := by
  induction s generalizing w with
  | nil => exact stops_nil w
  | cons srv rest ih =>
    rw [List.map_cons, join_cons]
    have h1 := stops_write w "---"
    rcases hx : w.Write "---" with ⟨w1, r1⟩
    rw [hx] at h1
    cases r1 with
    | some e =>
      simp only [services.ToYaml.nodes, hx]
      rw [String.append_assoc]
      exact stops_seq_err w w1 e _ _ h1
    | none =>
      have h2 : stopsAtFirstFailure w1
          (srv.ToYaml w1 conf.namespace_ conf.mesh conf.image).1
          (srv.ToYaml w1 conf.namespace_ conf.mesh conf.image).2
          (serviceDoc srv conf.namespace_ conf.mesh conf.image) :=
        stops_Execute _ srvTemplate w1 _ (render_srvTemplate srv _ _ _)
      rcases hy : srv.ToYaml w1 conf.namespace_ conf.mesh conf.image with ⟨w2, r2⟩
      rw [hy] at h2
      have h12 := stops_seq_ok w w1 w2 r2 _ _ h1 h2
      cases r2 with
      | some e =>
        simp only [services.ToYaml.nodes, hx, hy]
        exact stops_seq_err w w2 e _ _ h12
      | none =>
        simp only [services.ToYaml.nodes, hx, hy]
        exact stops_seq_ok w w2 _ _ _ _ h12 (ih w2)

theorem stops_ToYaml (s : services) (conf : serviceConf) (w : Writer) :
    stopsAtFirstFailure w (services.ToYaml s w conf).1 (services.ToYaml s w conf).2
      (fullYaml s conf) := by
  unfold fullYaml
  have h1 := stops_Execute _ namespaceTemplate w _ (render_namespaceTemplate conf)
  rcases hx : Template.Execute namespaceTemplate w
      [("namespace", conf.namespace_), ("mesh", conf.mesh)] with ⟨w1, r1⟩
  rw [hx] at h1
  cases r1 with
  | some e =>
    simp only [services.ToYaml, hx]
    rw [String.append_assoc]
    exact stops_seq_err w w1 e _ _ h1
  | none =>
    by_cases hg : conf.withGenerator = true
    · have h2 := stops_Execute _ clientTemplate w1 _ (render_clientTemplate conf)
      rcases hy : Template.Execute clientTemplate w1
          [("namespace", conf.namespace_), ("mesh", conf.mesh),
            ("uri", toUri 0 conf.namespace_)] with ⟨w2, r2⟩
      rw [hy] at h2
      have h12 := stops_seq_ok w w1 w2 r2 _ _ h1 h2
      cases r2 with
      | some e =>
        simp only [services.ToYaml, hx, hg, if_true, hy]
        exact stops_seq_err w w2 e _ _ h12
      | none =>
        simp only [services.ToYaml, hx, hg, if_true, hy]
        exact stops_seq_ok w w2 _ _ _ _ h12 (stops_nodes conf s w2)
    · have hf : conf.withGenerator = false := by simpa using hg
      simp only [services.ToYaml, hx, hf, Bool.false_eq_true, if_false, String.append_empty]
      exact stops_seq_ok w w1 _ _ _ _ h1 (stops_nodes conf s w1)

/-- C14: when a write fails during `services.ToYaml` (the call number `i`, made during
the run, is rejected), `ToYaml` returns the error of that call, makes no call after
it, every earlier call of the run was accepted, and what the sink has received is
the text it had followed by a prefix of the full output; so none of the documents
behind the failing write is produced. -/
theorem C14_ToYaml_aborts_at_first_failure (s : services) (conf : serviceConf) (w : Writer)
    (i : Nat) (h1 : w.calls ≤ i) (h2 : i < (services.ToYaml s w conf).1.calls)
    (h3 : w.reject i ≠ none) :
    (services.ToYaml s w conf).2 = some (Err.write i) ∧
      (services.ToYaml s w conf).1.calls = i + 1 ∧
      (∀ k, w.calls ≤ k → k < i → w.reject k = none) ∧
      (∃ pre : String, (services.ToYaml s w conf).1.out = w.out ++ pre ∧
        pre.data <+: (fullYaml s conf).data) ∧
      (∀ w0 : Writer, (∀ k, w0.reject k = none) →
        (services.ToYaml s w0 conf).2 = none ∧
          (services.ToYaml s w0 conf).1.out = w0.out ++ fullYaml s conf) := by
  obtain ⟨a, b, c, d, e, f⟩ := stops_ToYaml s conf w
  have hlast : i + 1 = (services.ToYaml s w conf).1.calls := by
    by_contra hne
    exact h3 (c i h1 (by omega))
  have hr : (services.ToYaml s w conf).2 ≠ none := by
    intro hn
    exact h3 ((e hn).2 i h1 h2)
  refine ⟨?_, hlast.symm, ?_, d, ?_⟩
  · cases hres : (services.ToYaml s w conf).2 with
    | none => exact absurd hres hr
    | some err =>
      obtain ⟨_, he, _⟩ := f err hres
      rw [he, ← hlast]
      rfl
  · intro k hk1 hk2
    exact c k hk1 (by omega)
  · intro w0 hw0
    obtain ⟨a0, _, _, _, e0, f0⟩ := stops_ToYaml s conf w0
    have hnone : (services.ToYaml s w0 conf).2 = none := by
      cases hres : (services.ToYaml s w0 conf).2 with
      | none => rfl
      | some err =>
        obtain ⟨_, _, hrej⟩ := f0 err hres
        exact absurd (hw0 _) hrej
    exact ⟨hnone, (e0 hnone).1⟩

/-- Witness of C14: the three-node graph written into a sink that rejects its call
number 8, a call made while the documents of the first node are written. -/
theorem C14_ToYaml_aborts_at_first_failure_witness :
    failingSink.calls ≤ 8 ∧ 8 < (services.ToYaml threeNodes failingSink defaultConf).1.calls ∧
      failingSink.reject 8 ≠ none ∧
      ((services.ToYaml threeNodes failingSink defaultConf).2 = some (Err.write 8) ∧
        (services.ToYaml threeNodes failingSink defaultConf).1.calls = 8 + 1 ∧
        (∀ k, failingSink.calls ≤ k → k < 8 → failingSink.reject k = none) ∧
        (∃ pre : String,
          (services.ToYaml threeNodes failingSink defaultConf).1.out = failingSink.out ++ pre ∧
          pre.data <+: (fullYaml threeNodes defaultConf).data) ∧
        (∀ w0 : Writer, (∀ k, w0.reject k = none) →
          (services.ToYaml threeNodes w0 defaultConf).2 = none ∧
            (services.ToYaml threeNodes w0 defaultConf).1.out =
              w0.out ++ fullYaml threeNodes defaultConf)) :=
  ⟨by decide, by decide, by decide,
    C14_ToYaml_aborts_at_first_failure threeNodes defaultConf failingSink 8
      (by decide) (by decide) (by decide)⟩

/-! ## The fields of the documents -/

theorem occursIn_of_infix (sub text : List Char) (h : sub <:+: text) :
    occursIn sub text = true := by
  obtain ⟨pre, post, rfl⟩ := h
  induction pre with
  | nil =>
    cases hs : sub with
    | nil =>
      cases post <;> simp [occursIn]
    | cons a sub2 =>
      simp only [List.nil_append, List.cons_append, occursIn, Bool.or_eq_true]
      left
      have h2 : (a :: sub2).isPrefixOf ((a :: sub2) ++ post) = true :=
        List.isPrefixOf_iff_prefix.mpr (List.prefix_append _ _)
      exact h2
  | cons c pre ih =>
    simp only [List.cons_append, List.append_assoc, occursIn, Bool.or_eq_true]
    right
    simpa using ih

set_option maxRecDepth 20000 in
theorem no_namespace_key_without_namespace :
    occursIn "namespace:".data
      (service.ToYaml { idx := 0, edges := [] } acceptingSink "" "default" "img").1.out.data =
        false := by
  decide

/-- Counterexample to C15 as stated: with the empty string as namespace, the documents
of node 0 are rendered without error and the text `namespace:` occurs nowhere in
them. -/
theorem C15_counterexample_empty_namespace :
    (service.ToYaml { idx := 0, edges := [] } acceptingSink "" "default" "img").2 = none ∧
      ¬ ("namespace:".data <:+:
        (service.ToYaml { idx := 0, edges := [] } acceptingSink "" "default" "img").1.out.data) := by
  constructor
  · decide
  · intro h
    have h2 := occursIn_of_infix _ _ h
    rw [no_namespace_key_without_namespace] at h2
    cases h2

/-- C15, as the code has it: the documents that `service.ToYaml` renders for a node
carry the name `toName(idx)` in the metadata of the workload and of the Service,
the mesh annotation `config.mesh` and the container image `config.image`; the
metadata of both resources carry the line `namespace: <config.namespace>` right
behind the name when `config.namespace` is not the empty string, and no namespace
line when it is the empty string. -/
theorem C15_node_documents_fields (s : service) (ns mesh image : String) (w : Writer)
    (hw : ∀ k, w.reject k = none) :
    (∃ w2, s.ToYaml w ns mesh image = (w2, none) ∧
      w2.out = w.out ++ serviceDoc s ns mesh image) ∧
      (∃ a b c d, serviceDoc s ns mesh image =
        "\napiVersion: apps/v1\nkind: StatefulSet\nmetadata:\n  name: " ++ toName s.idx ++
          namespaceLine ns ++ "\n  labels:\n" ++ a ++
          "        kuma.io/mesh: " ++ mesh ++ "\n" ++ b ++
          "          image: " ++ image ++ "\n" ++ c ++
          "---\napiVersion: v1\nkind: Service\nmetadata:\n  name: " ++ toName s.idx ++
          namespaceLine ns ++ "\n  annotations:\n" ++ d) ∧
      (ns ≠ "" → namespaceLine ns = "\n  namespace: " ++ ns) ∧
      (ns = "" → namespaceLine ns = "") := by
  refine ⟨?_, ?_, fun h => if_neg h, fun h => if_pos h⟩
  · obtain ⟨w2, h1, h2, _⟩ := service_ToYaml_accepting s w ns mesh image hw
    exact ⟨w2, h1, h2⟩
  · have h1 : "\n  labels:\n    app: " =
        "\n  labels:\n" ++ "    app: " := by decide
    have h2 : "\n      annotations:\n        kuma.io/mesh: " =
        "\n      annotations:\n" ++ "        kuma.io/mesh: " := by decide
    have h3 : "\n    spec:\n      containers:\n        - name: service\n          image: " =
        "\n" ++ "    spec:\n      containers:\n        - name: service\n" ++ "          image: " := by decide
    have h4 : "\n          ports:\n            - containerPort: 9090\n          env:\n            - name: SERVICE\n              value: \"" =
        "\n" ++ "          ports:\n            - containerPort: 9090\n          env:\n            - name: SERVICE\n              value: \"" := by decide
    have h5 : "\"\n          resources:\n            limits:\n              memory: \"64Mi\"\n              cpu: \"100m\"\n---\napiVersion: v1\nkind: Service\nmetadata:\n  name: " =
        "\"\n          resources:\n            limits:\n              memory: \"64Mi\"\n              cpu: \"100m\"\n" ++ "---\napiVersion: v1\nkind: Service\nmetadata:\n  name: " := by decide
    have h6 : "\n  annotations:\n    80.service.kuma.io/protocol: http\nspec:\n  selector:\n    app: " =
        "\n  annotations:\n" ++ "    80.service.kuma.io/protocol: http\nspec:\n  selector:\n    app: " := by decide
    unfold serviceDoc
    rw [h1, h2, h3, h4, h5, h6]
    refine ⟨"    app: " ++
        toName s.idx ++
        "\nspec:\n  replicas: 1\n  selector:\n    matchLabels:\n      app: " ++
        toName s.idx ++
        "\n  serviceName: " ++
        toName s.idx ++
        "\n  template:\n    metadata:\n      labels:\n        app: " ++
        toName s.idx ++
        "\n      annotations:\n",
      "    spec:\n      containers:\n        - name: service\n",
      "          ports:\n            - containerPort: 9090\n          env:\n            - name: SERVICE\n              value: \"" ++
        toName s.idx ++
        "\"\n            - name: UPSTREAM_URIS\n              value: \"" ++
        s.toUris ns ++
        "\"\n          resources:\n            limits:\n              memory: \"64Mi\"\n              cpu: \"100m\"\n",
      "    80.service.kuma.io/protocol: http\nspec:\n  selector:\n    app: " ++
        toName s.idx ++
        "\n  ports:\n    - protocol: TCP\n      port: 80\n      targetPort: 9090\n", ?_⟩
    simp only [String.append_assoc]

/-- Witness of C15: node 2 without edges, the default namespace, mesh and image, and
an empty sink that accepts every write. -/
theorem C15_node_documents_fields_witness :
    (∀ k, acceptingSink.reject k = none) ∧
      ((∃ w2, service.ToYaml { idx := 2, edges := [] } acceptingSink "kuma-test" "default"
          "nicholasjackson/fake-service:v0.21.1" = (w2, none) ∧
        w2.out = acceptingSink.out ++ serviceDoc { idx := 2, edges := [] } "kuma-test" "default"
          "nicholasjackson/fake-service:v0.21.1") ∧
        (∃ a b c d, serviceDoc { idx := 2, edges := [] } "kuma-test" "default"
            "nicholasjackson/fake-service:v0.21.1" =
          "\napiVersion: apps/v1\nkind: StatefulSet\nmetadata:\n  name: " ++
            toName ({ idx := 2, edges := [] } : service).idx ++
            namespaceLine "kuma-test" ++ "\n  labels:\n" ++ a ++
            "        kuma.io/mesh: " ++ "default" ++ "\n" ++ b ++
            "          image: " ++ "nicholasjackson/fake-service:v0.21.1" ++ "\n" ++ c ++
            "---\napiVersion: v1\nkind: Service\nmetadata:\n  name: " ++
            toName ({ idx := 2, edges := [] } : service).idx ++
            namespaceLine "kuma-test" ++ "\n  annotations:\n" ++ d) ∧
        ("kuma-test" ≠ "" → namespaceLine "kuma-test" = "\n  namespace: " ++ "kuma-test") ∧
        ("kuma-test" = "" → namespaceLine "kuma-test" = "")) :=
  ⟨fun _ => rfl,
    C15_node_documents_fields { idx := 2, edges := [] } "kuma-test" "default"
      "nicholasjackson/fake-service:v0.21.1" acceptingSink (fun _ => rfl)⟩

/-- C17: when `conf.withGenerator` is true, `services.ToYaml` writes, for every graph
(the empty one included) and right behind the namespace+mesh pair, the load-generator
document: it is named `fake-client`, carries the mesh annotation `conf.mesh`, and its
target argument is `toUri(0, conf.namespace)`, that is
`http://srv-000_<namespace>_svc_80.mesh:80`; when `conf.withGenerator` is false the
node documents follow the namespace+mesh pair directly and no such document is
written. -/
theorem C17_load_generator_document (s : services) (conf : serviceConf) (w : Writer)
    (hw : ∀ k, w.reject k = none) :
    (conf.withGenerator = true →
      ∃ w2, services.ToYaml s w conf = (w2, none) ∧
        w2.out = w.out ++ namespaceDoc conf ++ clientDoc conf ++
          String.join
            (s.map (fun srv => "---" ++ serviceDoc srv conf.namespace_ conf.mesh conf.image))) ∧
      (conf.withGenerator = false →
        ∃ w2, services.ToYaml s w conf = (w2, none) ∧
          w2.out = w.out ++ namespaceDoc conf ++
            String.join
              (s.map (fun srv => "---" ++ serviceDoc srv conf.namespace_ conf.mesh conf.image))) ∧
      (∃ a b c, clientDoc conf =
        "\n---\napiVersion: apps/v1\nkind: Deployment\nmetadata:" ++
          namespaceLine conf.namespace_ ++ "\n  name: \"fake-client\"\n" ++ a ++
          "        kuma.io/mesh: " ++ conf.mesh ++ "\n" ++ b ++
          "          args: [\"-qps\", \"1\", \"-concurrency\", \"10\", \"" ++
          toUri 0 conf.namespace_ ++ "\"]\n" ++ c) ∧
      toUri 0 conf.namespace_ = "http://srv-000_" ++ conf.namespace_ ++ "_svc_80.mesh:80" := by
  obtain ⟨w2, h1, h2⟩ := services_ToYaml_accepting s conf w hw
  refine ⟨?_, ?_, ?_, ?_⟩
  · intro hg
    rw [if_pos hg] at h2
    exact ⟨w2, h1, h2⟩
  · intro hg
    rw [if_neg (by simp [hg]), String.append_empty] at h2
    exact ⟨w2, h1, h2⟩
  · have h1 : "\n  name: \"fake-client\"\nspec:\n  replicas: 1\n  selector:\n    matchLabels:\n      app: \"fake-client\"\n  template:\n    metadata:\n      labels:\n        app: \"fake-client\" \n      annotations:\n        kuma.io/mesh: " =
        "\n  name: \"fake-client\"\n" ++ "spec:\n  replicas: 1\n  selector:\n    matchLabels:\n      app: \"fake-client\"\n  template:\n    metadata:\n      labels:\n        app: \"fake-client\" \n      annotations:\n" ++ "        kuma.io/mesh: " := rfl
    have h2 : "\n    spec:\n      containers:\n        - name: client\n          image: buoyantio/slow_cooker:1.3.0\n          args: [\"-qps\", \"1\", \"-concurrency\", \"10\", \"" =
        "\n" ++ "    spec:\n      containers:\n        - name: client\n          image: buoyantio/slow_cooker:1.3.0\n" ++ "          args: [\"-qps\", \"1\", \"-concurrency\", \"10\", \"" := rfl
    have h3 : "\"]\n          resources:\n            limits:\n              memory: \"32Mi\"\n              cpu: \"200m\"\n" =
        "\"]\n" ++ "          resources:\n            limits:\n              memory: \"32Mi\"\n              cpu: \"200m\"\n" := rfl
    unfold clientDoc
    rw [h1, h2, h3]
    refine ⟨"spec:\n  replicas: 1\n  selector:\n    matchLabels:\n      app: \"fake-client\"\n  template:\n    metadata:\n      labels:\n        app: \"fake-client\" \n      annotations:\n",
      "    spec:\n      containers:\n        - name: client\n          image: buoyantio/slow_cooker:1.3.0\n",
      "          resources:\n            limits:\n              memory: \"32Mi\"\n              cpu: \"200m\"\n", ?_⟩
    simp only [String.append_assoc]
  · have h0 : toName 0 = "srv-000" := by decide
    unfold toUri
    rw [h0]
    have h3 : "http://" ++ "srv-000" ++ "_" = "http://srv-000_" := by decide
    rw [← h3]

/-- Witness of C17: the empty graph, the default configuration with the load
generator switched on, and an empty sink that accepts every write. -/
theorem C17_load_generator_document_witness :
    (∀ k, acceptingSink.reject k = none) ∧
      ((generatorConf.withGenerator = true →
        ∃ w2, services.ToYaml [] acceptingSink generatorConf = (w2, none) ∧
          w2.out = acceptingSink.out ++ namespaceDoc generatorConf ++ clientDoc generatorConf ++
            String.join
              (([] : services).map (fun srv => "---" ++
                serviceDoc srv generatorConf.namespace_ generatorConf.mesh generatorConf.image))) ∧
        (generatorConf.withGenerator = false →
          ∃ w2, services.ToYaml [] acceptingSink generatorConf = (w2, none) ∧
            w2.out = acceptingSink.out ++ namespaceDoc generatorConf ++
              String.join
                (([] : services).map (fun srv => "---" ++
                  serviceDoc srv generatorConf.namespace_ generatorConf.mesh
                    generatorConf.image))) ∧
        (∃ a b c, clientDoc generatorConf =
          "\n---\napiVersion: apps/v1\nkind: Deployment\nmetadata:" ++
            namespaceLine generatorConf.namespace_ ++ "\n  name: \"fake-client\"\n" ++ a ++
            "        kuma.io/mesh: " ++ generatorConf.mesh ++ "\n" ++ b ++
            "          args: [\"-qps\", \"1\", \"-concurrency\", \"10\", \"" ++
            toUri 0 generatorConf.namespace_ ++ "\"]\n" ++ c) ∧
        toUri 0 generatorConf.namespace_ =
          "http://srv-000_" ++ generatorConf.namespace_ ++ "_svc_80.mesh:80") :=
  ⟨fun _ => rfl, C17_load_generator_document [] generatorConf acceptingSink (fun _ => rfl)⟩

/-! ## Draws consumed -/

theorem endPos_eq (draws : Nat → Nat) (ps : List (Nat × Nat)) (pos : Nat) :
    endPos draws ps pos = pos + ps.length +
      ((drawPositions draws ps pos).filter
        (fun e => decide (draws e.2.2 % (e.2.1 - e.1) = 0))).length := by
  induction ps generalizing pos with
  | nil => rfl
  | cons a ps ih =>
    obtain ⟨i, j⟩ := a
    simp only [endPos, drawPositions, List.filter_cons, List.length_cons, ih, posAfter]
    by_cases h : draws pos % (j - i) = 0
    · simp only [h, if_true, decide_True, List.length_cons]
      omega
    · simp only [h, if_false, decide_False, Bool.false_eq_true]
      omega

theorem pairsLex_length_aux (n m : Nat) (h : m ≤ n) :
    2 * ((List.range m).flatMap
      (fun i => (List.range' (i + 1) (n - (i + 1))).map (fun j => (i, j)))).length +
        m * (m + 1) = 2 * m * n := by
  induction m with
  | zero => simp
  | succ m ih =>
    have ih2 := ih (by omega)
    rw [List.range_succ, List.flatMap_append, List.length_append]
    simp only [List.flatMap_cons, List.flatMap_nil, List.append_nil, List.length_map,
      List.length_range']
    have e : n - (m + 1) + (m + 1) = n := by omega
    nlinarith [ih2, e]

theorem pairsLex_length (n : Nat) : (pairsLex n).length = n * (n - 1) / 2 := by
  have h := pairsLex_length_aux n n (le_refl n)
  unfold pairsLex
  cases n with
  | zero => rfl
  | succ k =>
    simp only [Nat.add_sub_cancel] at h ⊢
    have h2 : 2 * ((List.range (k + 1)).flatMap
        (fun i => (List.range' (i + 1) (k + 1 - (i + 1))).map (fun j => (i, j)))).length =
        (k + 1) * k := by
      nlinarith [h]
    omega

theorem take_pairs_valid (n k : Nat) (srvs : services) (hl : srvs.length = n) :
    ∀ e ∈ (pairsLex n).take k, e.1 < e.2 ∧ e.1 < srvs.length := by
  rintro ⟨i, j⟩ he
  have := (mem_pairsLex n i j).mp (List.mem_of_mem_take he)
  simp only [hl]
  omega

theorem initServices_length (n : Int) : (initServices n).length = n.toNat := by
  rw [initServices_eq]
  simp

/-- C18, as the code has it: for every pair `(i, j)` the first draw is always
consumed and the second one exactly when the first draw `a` passes
`a mod (j - i) == 0`, whatever `percentEdges` is; the loops visit the pairs one
after the other along one stream, so the draws consumed in all are the number of
pairs, `n * (n - 1) / 2` for `n = max(numServices, 0)`, plus the number of pairs
whose first draw passed, and the stream position reached after any number of pairs
is the same for every `percentEdges`. -/
theorem C18_draw_sequencing (source : Int → Nat → Nat) (seed numServices percentEdges : Int) :
    (∀ (draws : Nat → Nat) (i j pos : Nat) (srvs : services), i < j → i < srvs.length →
      ∃ st, edgeStep percentEdges (i : Int) (j : Int)
          { r := { draws := draws, pos := pos }, srvs := srvs } = some st ∧
        st.r.draws = draws ∧
        st.r.pos = if draws pos % (j - i) = 0 then pos + 2 else pos + 1) ∧
      generateRun source seed numServices percentEdges =
        (pairsLex numServices.toNat).foldlM
          (fun st e => edgeStep percentEdges (e.1 : Int) (e.2 : Int) st)
          { r := Rand.New source seed, srvs := initServices numServices } ∧
      (∃ st, generateRun source seed numServices percentEdges = some st ∧
        st.r.pos = numServices.toNat * (numServices.toNat - 1) / 2 +
          ((drawPositions (source seed) (pairsLex numServices.toNat) 0).filter
            (fun e => decide (source seed e.2.2 % (e.2.1 - e.1) = 0))).length) ∧
      (pairsLex numServices.toNat).length = numServices.toNat * (numServices.toNat - 1) / 2 ∧
      (0 ≤ numServices →
        ∃ st, generateRun source seed numServices percentEdges = some st ∧
          (st.r.pos : Int) = numServices * (numServices - 1) / 2 +
            (((drawPositions (source seed) (pairsLex numServices.toNat) 0).filter
              (fun e => decide (source seed e.2.2 % (e.2.1 - e.1) = 0))).length : Nat)) ∧
      (∀ (p2 : Int) (k : Nat), ∃ st st2,
        ((pairsLex numServices.toNat).take k).foldlM
            (fun st e => edgeStep percentEdges (e.1 : Int) (e.2 : Int) st)
            { r := Rand.New source seed, srvs := initServices numServices } = some st ∧
          ((pairsLex numServices.toNat).take k).foldlM
            (fun st e => edgeStep p2 (e.1 : Int) (e.2 : Int) st)
            { r := Rand.New source seed, srvs := initServices numServices } = some st2 ∧
          st.r.pos = st2.r.pos) := by
  refine ⟨?_, ?_, ?_, pairsLex_length _, ?_, ?_⟩
  · intro draws i j pos srvs hij hi
    exact ⟨_, edgeStep_cast draws percentEdges i j pos srvs hij hi, rfl, rfl⟩
  · unfold generateRun
    rw [outerLoop_eq]
  · refine ⟨_, generateRun_eq source seed numServices percentEdges, ?_⟩
    simp only
    rw [endPos_eq, pairsLex_length]
    omega
  · intro hn
    refine ⟨_, generateRun_eq source seed numServices percentEdges, ?_⟩
    simp only
    rw [endPos_eq, pairsLex_length]
    have hc : ((numServices.toNat * (numServices.toNat - 1) / 2 : Nat) : Int) =
        numServices * (numServices - 1) / 2 := by
      rw [Int.natCast_div, Nat.cast_mul]
      by_cases h0 : numServices = 0
      · subst h0
        rfl
      · rw [Nat.cast_sub (by omega), Int.toNat_of_nonneg hn]
        rfl
    rw [← hc]
    push_cast
    ring
  · intro p2 k
    have hv := take_pairs_valid numServices.toNat k (initServices numServices)
      (initServices_length numServices)
    exact ⟨_, _, run_pairs (source seed) percentEdges _ 0 _ hv,
      run_pairs (source seed) p2 _ 0 _ hv, rfl⟩

/-- Counterexample to C18 as stated: for `numServices = -1` there is no pair and no
draw is consumed, although `numServices * (numServices - 1) / 2` is 1. -/
theorem C18_counterexample_negative_numServices :
    ∃ st, generateRun (fun _ _ => 0) 0 (-1) 50 = some st ∧ st.r.pos = 0 ∧
      pairsLex (-1 : Int).toNat = [] ∧
      (st.r.pos : Int) ≠ (-1 : Int) * (-1 - 1) / 2 +
        (((drawPositions (fun _ => 0) (pairsLex (-1 : Int).toNat) 0).filter
          (fun e => decide ((fun _ => 0) e.2.2 % (e.2.1 - e.1) = 0))).length : Nat) :=
  ⟨_, generateRun_eq _ 0 (-1) 50, by decide, by decide, by decide⟩

/-! ## Template keys -/

/-- C20: template-resolution errors cannot occur: every key that the namespace, the
load-generator and the per-node template refer to has an entry in the map that the
program passes to the template, for every graph and every configuration; so
`services.ToYaml` never returns a missing-key error, and when the sink accepts
every write it returns no error at all. -/
theorem C20_no_template_resolution_error (s : services) (conf : serviceConf) (w : Writer) :
    (∀ key ∈ templateKeys namespaceTemplate,
      ([("namespace", conf.namespace_), ("mesh", conf.mesh)] : Data).lookup key ≠ none) ∧
      (∀ key ∈ templateKeys clientTemplate,
        ([("namespace", conf.namespace_), ("mesh", conf.mesh),
          ("uri", toUri 0 conf.namespace_)] : Data).lookup key ≠ none) ∧
      (∀ (srv : service), ∀ key ∈ templateKeys srvTemplate,
        ([("name", toName srv.idx), ("namespace", conf.namespace_), ("mesh", conf.mesh),
          ("uris", srv.toUris conf.namespace_), ("image", conf.image)] : Data).lookup key ≠
            none) ∧
      (∀ key, (services.ToYaml s w conf).2 ≠ some (Err.missingKey key)) ∧
      ((∀ k, w.reject k = none) → (services.ToYaml s w conf).2 = none) := by
  obtain ⟨_, _, _, _, _, f⟩ := stops_ToYaml s conf w
  refine ⟨?_, ?_, ?_, ?_, ?_⟩
  · intro key hk
    simp only [templateKeys, leafKeys, namespaceTemplate, List.mem_cons, List.mem_append,
      List.mem_nil_iff, or_false] at hk
    rcases hk with rfl | rfl <;> simp [List.lookup]
  · intro key hk
    simp only [templateKeys, leafKeys, clientTemplate, List.mem_cons, List.mem_append,
      List.mem_nil_iff, or_false] at hk
    rcases hk with rfl | rfl | rfl | rfl <;> simp [List.lookup]
  · intro srv key hk
    simp only [templateKeys, leafKeys, srvTemplate, List.mem_cons, List.mem_append,
      List.mem_nil_iff, or_false] at hk
    rcases hk with rfl | rfl | rfl | rfl | rfl | rfl | rfl | rfl | rfl | rfl | rfl | rfl | rfl
      | rfl | rfl | rfl <;> simp [List.lookup]
  · intro key hk
    obtain ⟨_, he, _⟩ := f _ hk
    cases he
  · intro hw
    cases hres : (services.ToYaml s w conf).2 with
    | none => rfl
    | some err =>
      obtain ⟨_, _, hrej⟩ := f err hres
      exact absurd (hw _) hrej

end GenerateMesh
